import Mathlib

/-!
Shallow embedding of the esm-vscode repository's import-map resolver
(src/import-map.ts), persistent fetch cache (src/cache.ts) and module
resolution state machine (src/typescript-esmsh-plugin.ts, the revision
whose `Plugin` class keeps a single import map and the five per-project
collections urlMappings / typesMappings / httpImports / badImports /
fetchPromises).

Strings are modelled by Lean `String`; all primitive operations are
re-implemented structurally over `List Char` so that every definition
reduces in the kernel.  JavaScript string indices (`slice`, `length`)
are modelled by character counts.  The WHATWG `URL` class, an external
collaborator of the code, is modelled by a small record with the fields
the code reads (protocol, host, pathname, search, origin, href) and a
simplified resolution algorithm covering absolute http/https/file URLs,
path-absolute references and plain relative references (dot-segment
normalisation is not modelled; no theorem below depends on it).
-/

/-! ## String helpers -/

def strLen (s : String) : Nat := s.data.length

def strStartsWith (s p : String) : Bool := p.data.isPrefixOf s.data

def strEndsWith (s p : String) : Bool := p.data.isSuffixOf s.data

/-- JavaScript `s.slice(n)`, by character count. -/
def strDrop (s : String) (n : Nat) : String := ⟨s.data.drop n⟩

/-- Split a character list at every occurrence of the character `c`
(the semantics of JavaScript `s.split(c)` for a one-character separator). -/
def splitChar (c : Char) : List Char → List (List Char)
  | [] => [[]]
  | a :: rest =>
    let r := splitChar c rest
    if a = c then [] :: r
    else
      match r with
      | h :: t => (a :: h) :: t
      | [] => [[a]]

def joinWith (sep : List Char) : List (List Char) → List Char
  | [] => []
  | [l] => l
  | l :: rest => l ++ sep ++ joinWith sep rest

/-- Number of elements of JavaScript `s.split("/")`: one more than the
number of `/` characters. -/
def segCount (s : String) : Nat := s.data.count '/' + 1

def isDigitChar (c : Char) : Bool := '0' ≤ c && c ≤ '9'

def digitsToNat : List Char → Nat → Nat
  | [], acc => acc
  | c :: rest, acc => digitsToNat rest (acc * 10 + (c.toNat - '0'.toNat))

/-- The search performed by the regular expression `/max-age=(\d+)/` on a
header value: at each position, succeed if the literal `max-age=` is
followed by at least one digit, capturing the maximal digit run;
otherwise advance one character.  A negative value such as `max-age=-5`
never matches because `\d` excludes the minus sign. -/
def findMaxAge : List Char → Option Nat
  | [] => none
  | c :: rest =>
    if "max-age=".data.isPrefixOf (c :: rest) then
      let after := (c :: rest).drop 8
      let ds := after.takeWhile isDigitChar
      if ds.isEmpty then findMaxAge rest else some (digitsToNat ds 0)
    else findMaxAge rest

/-! ## URL model -/

structure URLm where
  scheme : String
  host : String
  pathname : String
  search : String
deriving Repr, DecidableEq

def urlHref (u : URLm) : String := u.scheme ++ "://" ++ u.host ++ u.pathname ++ u.search

/-- The accessor `URL.origin`; a `file:` URL has the opaque origin `"null"`. -/
def urlOrigin (u : URLm) : String :=
  if u.scheme = "file" then "null" else u.scheme ++ "://" ++ u.host

def urlProtocol (u : URLm) : String := u.scheme ++ ":"

/-- Split `path?query` into pathname and search (the search keeps its
leading `?`); fragments are not modelled. -/
def splitPathSearch (l : List Char) : String × String :=
  (⟨l.takeWhile (· ≠ '?')⟩, ⟨l.dropWhile (· ≠ '?')⟩)

def parseAfterScheme (scheme : String) (rest : List Char) : Option URLm :=
  let host := rest.takeWhile (fun c => c ≠ '/' && c ≠ '?')
  let tail := rest.dropWhile (fun c => c ≠ '/' && c ≠ '?')
  if host.isEmpty then none
  else
    let (p, q) := splitPathSearch tail
    some ⟨scheme, ⟨host⟩, if p = "" then "/" else p, q⟩

/-- Parse an absolute URL (http, https or file scheme). -/
def parseAbs (s : String) : Option URLm :=
  if strStartsWith s "https://" then parseAfterScheme "https" (s.data.drop 8)
  else if strStartsWith s "http://" then parseAfterScheme "http" (s.data.drop 7)
  else if strStartsWith s "file:///" then
    let (p, q) := splitPathSearch (s.data.drop 7)
    some ⟨"file", "", p, q⟩
  else none

/-- Pathname directory: everything up to and including the last `/`. -/
def dirName (p : String) : String := ⟨(p.data.reverse.dropWhile (· ≠ '/')).reverse⟩

/-- Model of `new URL(input, base)`: absolute input wins; a path-absolute input
replaces the base's path; otherwise the input is merged onto the base's
directory.  `none` models a thrown `TypeError`. -/
def urlResolve (input : String) (base : URLm) : Option URLm :=
  match parseAbs input with
  | some u => some u
  | none =>
    if strStartsWith input "//" then none
    else if strStartsWith input "/" then
      let (p, q) := splitPathSearch input.data
      some { base with pathname := p, search := q }
    else if input = "." then some { base with pathname := dirName base.pathname, search := "" }
    else if input = "" then some base
    else
      let (p, q) := splitPathSearch input.data
      some { base with pathname := dirName base.pathname ++ p, search := q }

def fileRoot : URLm := ⟨"file", "", "/", ""⟩

/-- The helper `toUrl(path)` from the plugin: `new URL(path, "file:///").href`. -/
def toUrl (path : String) : String :=
  match urlResolve path fileRoot with
  | some u => urlHref u
  | none => path

/-! ## Import-map model (src/import-map.ts) -/

/-- The `ImportMap` record with `imports` and `scopes` modelled as association
lists in JavaScript object iteration (insertion) order. -/
structure ImportMapL where
  baseURL : String
  imports : List (String × String)
  scopes : List (String × List (String × String))
deriving Repr, DecidableEq

def blankImportMap : ImportMapL := ⟨"file:///", [], []⟩

/-- The per-key test applied by the loop of `matchImportUrl`: a key
ending in `/` matches when the specifier starts with it; a key not
ending in `/` matches when the specifier starts with the key followed
by `/`. -/
def matchKey (specifier k : String) : Bool :=
  if strEndsWith k "/" then strStartsWith specifier k
  else strStartsWith specifier (k ++ "/")

/-- The `for (const [k, v] of Object.entries(imports))` loop of
`matchImportUrl`: first matching key in iteration order wins. -/
def firstPrefixMatch (specifier : String) : List (String × String) → Option String
  | [] => none
  | (k, v) :: rest =>
    if strEndsWith k "/" then
      if strStartsWith specifier k then some (v ++ strDrop specifier (strLen k))
      else firstPrefixMatch specifier rest
    else if strStartsWith specifier (k ++ "/") then some (v ++ strDrop specifier (strLen k))
    else firstPrefixMatch specifier rest

/-- The function `matchImportUrl` (src/import-map.ts:110-124): an exact key wins
outright; otherwise the entry loop runs. -/
def matchImportUrl (specifier : String) (imports : List (String × String)) : Option String :=
  match List.lookup specifier imports with
  | some v => some v
  | none => firstPrefixMatch specifier imports

/-- Collect the scopes whose key resolves (against `$baseURL`) to the
containing document's origin, keeping declaration order; `none` models
a URL constructor throw inside the loop. -/
def collectSameOriginScopes (baseU : URLm) (origin : String) :
    List (String × List (String × String)) → Option (List (String × List (String × String)))
  | [] => some []
  | (name, table) :: rest =>
    match urlResolve name baseU with
    | none => none
    | some su =>
      match collectSameOriginScopes baseU origin rest with
      | none => none
      | some acc =>
        some (if urlOrigin su = origin then (su.pathname, table) :: acc else acc)

/-- One insertion step of the stable sort performed by
`sameOriginScopes.sort(([a],[b]) => b.split("/").length - a.split("/").length)`:
descending by segment count, ties keeping declaration order. -/
def insertScopeDesc (x : String × List (String × String)) :
    List (String × List (String × String)) → List (String × List (String × String))
  | [] => [x]
  | h :: t => if segCount h.1 > segCount x.1 then h :: insertScopeDesc x t else x :: h :: t

def sortScopesDesc : List (String × List (String × String)) → List (String × List (String × String))
  | [] => []
  | h :: t => insertScopeDesc h (sortScopesDesc t)

/-- The scope loop of `resolve`: first sorted scope whose pathname
prefixes the containing path and whose table matches the specifier. -/
def scopeLoop (pathname specifier : String) : List (String × List (String × String)) → Option String
  | [] => none
  | (sp, tbl) :: rest =>
    if strStartsWith pathname sp then
      match matchImportUrl specifier tbl with
      | some m => some m
      | none => scopeLoop pathname specifier rest
    else scopeLoop pathname specifier rest

/-- The function `resolve` (src/import-map.ts:80-108).  Returns `none` when a URL
constructor throws (propagated to the caller as an exception). -/
def resolve (im : ImportMapL) (specifier containingFile : String) : Option (String × Bool) :=
  match parseAbs im.baseURL with
  | none => none
  | some baseU =>
    match urlResolve containingFile baseU with
    | none => none
    | some cu =>
      match collectSameOriginScopes baseU (urlOrigin cu) im.scopes with
      | none => none
      | some sos =>
        match scopeLoop cu.pathname specifier (sortScopesDesc sos) with
        | some m => some (m, true)
        | none =>
          if urlOrigin cu = urlOrigin baseU then
            match matchImportUrl specifier im.imports with
            | some m => some (m, true)
            | none => some (specifier, false)
          else some (specifier, false)

/-! ## Persistent fetch cache (src/cache.ts)

The on-disk metadata directory keys files by the sha256 hex digest of
the URL's href; the digest is modelled by the href itself (an injective
encoding).  The body store records which save paths exist.  `Date.now()`
is passed explicitly as `now` (milliseconds).  A `Response` is modelled
by the fields the code reads. -/

structure CacheMeta where
  url : String
  code : Nat
  headers : List (String × String)
  ctime : Nat
deriving Repr, DecidableEq

/-- A metadata file on disk: either valid JSON or corrupt. -/
inductive MetaFile where
  | valid (m : CacheMeta)
  | corrupt
deriving Repr, DecidableEq

structure CacheState where
  metaStore : List (String × MetaFile)
  bodyStore : List String
deriving Repr, DecidableEq

structure CResp where
  url : String
  status : Nat
  headers : List (String × String)
  redirected : Bool
  hasBody : Bool
deriving Repr, DecidableEq

/-- The accessor `res.ok`: status in the 2xx range. -/
def respOk (r : CResp) : Bool := 200 ≤ r.status && r.status < 300

/-- A network response delivered by the `fetch` collaborator. -/
structure NetResp where
  url : String
  status : Nat
  headers : List (String × String)
  redirected : Bool
  hasBody : Bool
deriving Repr, DecidableEq

def respOfNet (n : NetResp) : CResp := ⟨n.url, n.status, n.headers, n.redirected, n.hasBody⟩

def netOk (n : NetResp) : Bool := 200 ≤ n.status && n.status < 300

/-- Model of `Headers.get`, over the lowercase header names the code uses. -/
def headersGet (name : String) (hs : List (String × String)) : Option String :=
  List.lookup name hs

/-- Truthiness of `headers.get("location")`: present and non-empty. -/
def locationTruthy (hs : List (String × String)) : Bool :=
  match headersGet "location" hs with
  | some s => s ≠ ""
  | none => false

/-- The `maxAge` extraction from an optional `cache-control` value via
`cc?.match(/max-age=(\d+)/)?.[1]`.  The subsequent source check
`parseInt(maxAge) < 0` can never fire because `\d+` only matches
nonnegative digit runs, so a parse success is returned as the value. -/
def ccMaxAge (cc : Option String) : Option Nat :=
  match cc with
  | none => none
  | some s => findMaxAge s.data

/-- Save path of a body: the pathname, or (for query-carrying URLs) a
hash-derived name, modelled as the href tagged with a `?` (pathnames
produced by the URL model never contain `?`, so the encoding is
collision-free). -/
def saveName (u : URLm) : String :=
  if u.search ≠ "" then "?" ++ urlHref u else u.pathname

def writeMeta (href : String) (m : CacheMeta) (c : CacheState) : CacheState :=
  { c with metaStore := (href, MetaFile.valid m) :: c.metaStore.filter (fun kv => kv.1 ≠ href) }

def removeMeta (href : String) (c : CacheState) : CacheState :=
  { c with metaStore := c.metaStore.filter (fun kv => kv.1 ≠ href) }

def writeBody (p : String) (c : CacheState) : CacheState :=
  { c with bodyStore := p :: c.bodyStore }

def removeBody (p : String) (c : CacheState) : CacheState :=
  { c with bodyStore := c.bodyStore.filter (fun q => q ≠ p) }

/-- The method `Cache.query` (src/cache.ts:65-105): local-only lookup.  Corrupt
metadata is deleted (self-healing); redirect metadata (a truthy
`location` header) is returned as-is with the `redirected` marker; a
non-redirect entry is a hit only when `max-age` parses, the body file
exists and the entry is unexpired, and is deleted otherwise. -/
def cacheQuery (u : URLm) (now : Nat) (c : CacheState) : Option CResp × CacheState :=
  let href := urlHref u
  match List.lookup href c.metaStore with
  | none => (none, c)
  | some MetaFile.corrupt => (none, removeMeta href c)
  | some (MetaFile.valid meta) =>
    if locationTruthy meta.headers then
      (some ⟨meta.url, meta.code, meta.headers, true, false⟩, c)
    else
      match ccMaxAge (headersGet "cache-control" meta.headers) with
      | none => (none, removeMeta href c)
      | some maxAge =>
        let sp := saveName u
        let hasContent := c.bodyStore.contains sp
        if !hasContent || decide (meta.ctime + maxAge * 1000 < now) then
          (none, if hasContent then removeBody sp (removeMeta href c) else removeMeta href c)
        else (some ⟨meta.url, 200, meta.headers, false, true⟩, c)

/-- The network half of `Cache.fetch` (src/cache.ts:38-62), run once
the query has missed and the network response `res` has arrived.  A
301/302 status persists redirect-only metadata; an unsuccessful or
bodyless response is returned uncached; a success response is
persisted (filtered headers as metadata, body at the save path) only
when `max-age` parses — note that `max-age=0` parses and is therefore
persisted.  The writes happen at response-arrival time against the
then-current store. -/
def cacheFetchNet (u : URLm) (res : NetResp) (now : Nat) (c : CacheState) : CResp × CacheState :=
  if res.status = 302 || res.status = 301 then
    (respOfNet res, writeMeta (urlHref u) ⟨urlHref u, res.status, [("location", res.url)], now⟩ c)
  else if !netOk res || !res.hasBody then (respOfNet res, c)
  else
    match ccMaxAge (headersGet "cache-control" res.headers) with
    | none => (respOfNet res, c)
    | some _ =>
      let hs := res.headers.filter
        (fun kv => kv.1 = "cache-control" || kv.1 = "content-type" || kv.1 = "x-typescript-types")
      let c2 := writeBody (saveName u) (writeMeta (urlHref u) ⟨res.url, 200, hs, now⟩ c)
      (⟨res.url, 200, hs, false, true⟩, c2)

/-- The method `Cache.fetch` (src/cache.ts:33-63): serve a query hit;
otherwise hit the network and run the network half. -/
def cacheFetch (u : URLm) (net : String → NetResp) (now : Nat) (c : CacheState) : CResp × CacheState :=
  match cacheQuery u now c with
  | (some r, c1) => (r, c1)
  | (none, c1) => cacheFetchNet u (net (urlHref u)) now c1

/-- The method `Cache.getStorePath` (the cache revision the plugin's
`#getStorePath` delegates to): esm.sh and cdn.esm.sh hosts map flat,
other hosts under a dash-namespaced segment naming the host, joined to
the store root.  `homedir()` is modelled as the literal home path. -/
def storeDir : String := "/home/user/.cache/esm.sh"

def getStorePath (u : URLm) : String :=
  storeDir ++ (if u.host = "esm.sh" || u.host = "cdn.esm.sh" then "" else "/-/" ++ u.host) ++ u.pathname

/-! ## Module resolution state machine (src/typescript-esmsh-plugin.ts)

The embedded revision is the one whose `Plugin` keeps a single import
map: fields at lines 386-390, `resolveModuleName` at lines 566-698,
the referenced-declaration-file background fetch at lines 454-481.
`cache.query` is treated as the synchronous local-only lookup the
plugin code reads it as.  Background tasks are reified: spawning a
task inserts its key into `fetchPromises` together with the data the
task holds at spawn time (`moduleUrl`, `autoFetch`, and the outcome of
the local query the promise expression evaluates at spawn); completing
a task runs the outstanding network half (if any) and the
`then/catch/finally` body against a network oracle. -/

/-- The function `getScriptExtension` of the plugin. -/
def getScriptExtension (pathname : String) : Option String :=
  let basename : List Char := ((splitChar '/' pathname.data).reverse).headD []
  let revParts := splitChar '.' basename
  match revParts.reverse with
  | [] => none
  | [_] => none
  | ext :: _ =>
    let b : String := ⟨basename⟩
    if ext = "ts".data then some (if strEndsWith b ".d.ts" then ".d.ts" else ".ts")
    else if ext = "mts".data then some (if strEndsWith b ".d.mts" then ".d.mts" else ".mts")
    else if ext = "cts".data then some (if strEndsWith b ".d.cts" then ".d.cts" else ".cts")
    else if ext = "tsx".data then some ".tsx"
    else if ext = "js".data then some ".js"
    else if ext = "mjs".data then some ".js"
    else if ext = "cjs".data then some ".cjs"
    else if ext = "jsx".data then some ".jsx"
    else if ext = "json".data then some ".json"
    else some ".js"

def isHttpUrl (url : String) : Bool :=
  strStartsWith url "http://" || strStartsWith url "https://"

def isRelativePath (path : String) : Bool :=
  strStartsWith path "./" || strStartsWith path "../"

/-- The test `/\.d\.(c|m)?ts$/`. -/
def dtsRegexTest (s : String) : Bool :=
  strEndsWith s ".d.ts" || strEndsWith s ".d.cts" || strEndsWith s ".d.mts"

/-- The getter `jsxImportSource`: the first of the well-known specifiers present
in the import map's global imports. -/
def jsxImportSource (im : ImportMapL) : Option String :=
  let rec go : List String → Option String
    | [] => none
    | k :: rest =>
      match List.lookup k im.imports with
      | some v => some v
      | none => go rest
  go ["@jsxRuntime", "react", "preact", "solid-js", "nano-jsx", "vue"]

def isJsxRuntime (im : ImportMapL) (url : String) : Bool :=
  match jsxImportSource im with
  | some s => url = s ++ "/jsx-runtime" || url = s ++ "/jsx-dev-runtime"
  | none => false

def isAsciiWordChar (c : Char) : Bool :=
  ('a' ≤ c && c ≤ 'z') || ('A' ≤ c && c ≤ 'Z') || ('0' ≤ c && c ≤ '9') || c = '_'

def isNameChar (c : Char) : Bool := isAsciiWordChar c || c = '.' || c = '-'

def allNameChars (s : List Char) : Bool := !s.isEmpty && s.all isNameChar

/-- The version core `\d+(\.\d+){0,2}`: one to three nonempty digit
runs separated by dots. -/
def numOk (s : List Char) : Bool :=
  let parts := splitChar '.' s
  decide (parts.length ≤ 3) && parts.all (fun p => !p.isEmpty && p.all isDigitChar)

/-- The version alternative
`\d+(\.\d+){0,2}(\-[\w\.]+)?|next|canary|rc|beta|latest`.  The
pre-release tail class `[\w.]` excludes `-`, so a matching version has
at most one dash. -/
def versionOk (s : List Char) : Bool :=
  s = "next".data || s = "canary".data || s = "rc".data || s = "beta".data || s = "latest".data ||
    (match splitChar '-' s with
     | [a] => numOk a
     | [a, b] => numOk a && !b.isEmpty && b.all (fun c => isAsciiWordChar c || c = '.')
     | _ => false)

/-- A path segment of the form `[\w\.\-]+@version` (the name class
excludes `@`, so the segment splits at its unique `@`). -/
def nameAtVersion (seg : List Char) : Bool :=
  match splitChar '@' seg with
  | [name, ver] => allNameChars name && versionOk ver
  | _ => false

/-- The predicate `isWellKnownCDNURL`: this revision's
`regexpPackagePath` tests the pathname against the end-anchored
pattern `\/((@|gh\/|pr\/|jsr\/@)[\w\.\-]+\/)?[\w\.\-]+@version$`
(no trailing-segment alternative).  The optional scope group only ever
widens the language — any match using it contains a group-free match
on its last `/name@version` segment — so `test` succeeds exactly when
the final `/`-separated segment has the `name@version` shape (the
split of an absolute pathname always yields a segment before it). -/
def isWellKnownCDNURL (u : URLm) : Bool :=
  match (splitChar '/' u.pathname.data).reverse with
  | a :: _ :: _ => nameAtVersion a
  | _ => false

structure ResolvedModule where
  resolvedFileName : String
  extension : String
  resolvedUsingTsExtension : Bool
deriving Repr, DecidableEq

/-- The data captured by a background task stored in `fetchPromises`.
The promise expression `autoFetch ? cache.fetch(moduleUrl) :
Promise.resolve(cache.query(moduleUrl))` evaluates its local query
against the spawn-turn cache — for the passive arm the query argument
is evaluated synchronously at spawn, and for `cache.fetch` the query
phase of its body runs before its first network suspension, ahead of
any other event-loop work — so the query outcome is captured at spawn:
`captured` is that spawn-time result, and `netPending` records whether
a network request is still outstanding (an eager fetch whose query
missed).  Only the network half of the fetch runs at completion
time. -/
structure TaskInfo where
  moduleUrl : URLm
  autoFetch : Bool
  captured : Option CResp
  netPending : Bool
deriving Repr, DecidableEq

/-- The five per-project collections (lines 386-390). -/
structure PSt where
  urlMappings : List (String × String)
  typesMappings : List (String × String)
  httpImports : List String
  badImports : List String
  fetchPromises : List (String × TaskInfo)
deriving Repr, DecidableEq

def initPSt : PSt := ⟨[], [], [], [], []⟩

structure RmnResult where
  result : Option ResolvedModule
  st : PSt
  cache : CacheState
  spawned : List String
deriving Repr, DecidableEq

/-- Lines 566-574: run the import map over the specifier. -/
def rmnSpecifier (im : ImportMapL) (isBlank : Bool) (specifier containingFile : String) :
    String × Bool :=
  if !isBlank then
    match resolve im specifier containingFile with
    | some (url, true) => (url, true)
    | some (_, false) => (specifier, false)
    | none => (specifier, false)
  else (specifier, false)

/-- Lines 578-591: build the module URL against the containing file
and inherit a declaration-file extension when the path has none. -/
def rmnModuleUrl (specifier2 containingFile : String) : Option URLm :=
  match urlResolve containingFile fileRoot with
  | none => none
  | some cfU =>
    match urlResolve specifier2 cfU with
    | none => none
    | some mu0 =>
      match getScriptExtension mu0.pathname with
      | some _ => some mu0
      | none =>
        match getScriptExtension containingFile with
        | some e =>
          if e = ".d.ts" || e = ".d.mts" || e = ".d.cts" then
            some { mu0 with pathname := mu0.pathname ++ e }
          else some mu0
        | none => some mu0

def extOrDefault (f : String) : String := (getScriptExtension f).getD ".d.ts"

def httpsEsmShRoot : URLm := ⟨"https", "esm.sh", "/", ""⟩

/-- Lines 594-601: reconstruct the remote URL represented by a file
inside the cache store (with the dash-namespaced host convention). -/
def rmnStoreUrl (containingFile : String) : Option URLm :=
  match urlResolve (strDrop (toUrl containingFile) (strLen (toUrl storeDir))) httpsEsmShRoot with
  | none => none
  | some url =>
    if strStartsWith url.pathname "/-/" then
      match splitChar '/' (strDrop url.pathname 3).data with
      | host :: rest => some { url with host := ⟨host⟩, pathname := "/" ++ ⟨joinWith "/".data rest⟩ }
      | [] => some url
    else some url

/-- The method `Plugin.resolveModuleName` (lines 566-698).  The first component is
the call's return value; `st`/`cache` are the collections and cache
after the synchronous call; `spawned` records the keys of background
tasks created by the call.  A `none` result with unchanged state also
models a thrown URL constructor error (caught by the caller).  `fuel`
bounds the recursion (the source recursion is unbounded). -/
def resolveModuleName : Nat → ImportMapL → Bool → String → String → Nat → PSt → CacheState →
    RmnResult
  | 0, _, _, _, _, _, st, c => ⟨none, st, c, []⟩
  | fuel + 1, im, isBlank, specifier, containingFile, now, st, c =>
    let sp := rmnSpecifier im isBlank specifier containingFile
    let specifier2 := sp.1
    let importMapResolved := sp.2
    if !importMapResolved && !isHttpUrl specifier2 && !isRelativePath specifier2 then
      ⟨none, st, c, []⟩
    else
      match rmnModuleUrl specifier2 containingFile with
      | none => ⟨none, st, c, []⟩
      | some mu =>
        let href := urlHref mu
        if mu.scheme = "file" then
          if strStartsWith (toUrl containingFile) (toUrl storeDir) then
            match rmnStoreUrl containingFile with
            | none => ⟨none, st, c, []⟩
            | some url => resolveModuleName fuel im isBlank specifier2 (urlHref url) now st c
          else ⟨none, st, c, []⟩
        else if st.badImports.contains href then ⟨none, st, c, []⟩
        else
          match List.lookup href st.urlMappings with
          | some redirectUrl => resolveModuleName fuel im isBlank redirectUrl containingFile now st c
          | none =>
            match List.lookup href st.typesMappings with
            | some f => ⟨some ⟨f, extOrDefault f, true⟩, st, c, []⟩
            | none =>
              if st.httpImports.contains href then ⟨some ⟨href, ".js", false⟩, st, c, []⟩
              else
                match cacheQuery mu now c with
                | (some res, c1) =>
                  if res.redirected then
                    resolveModuleName fuel im isBlank res.url containingFile now
                      { st with urlMappings := (href, res.url) :: st.urlMappings } c1
                  else
                    match headersGet "x-typescript-types" res.headers with
                    | some d =>
                      match urlResolve d mu with
                      | none => ⟨none, st, c1, []⟩
                      | some dUrl =>
                        match cacheQuery dUrl now c1 with
                        | (some dtsRes, c2) =>
                          match parseAbs dtsRes.url with
                          | none => ⟨none, st, c2, []⟩
                          | some ru =>
                            let f := getStorePath ru
                            ⟨some ⟨f, extOrDefault f, true⟩,
                              { st with typesMappings := (href, f) :: st.typesMappings }, c2, []⟩
                        | (none, c2) =>
                          ⟨some ⟨href, ".js", false⟩,
                            { st with httpImports := href :: st.httpImports }, c2, []⟩
                    | none =>
                      if dtsRegexTest mu.pathname then
                        let f := getStorePath mu
                        ⟨some ⟨f, extOrDefault f, true⟩,
                          { st with typesMappings := (href, f) :: st.typesMappings }, c1, []⟩
                      else
                        ⟨some ⟨href, ".js", false⟩,
                          { st with httpImports := href :: st.httpImports }, c1, []⟩
                | (none, c1) =>
                  if (List.lookup href st.fetchPromises).isNone then
                    let autoFetch := importMapResolved || isHttpUrl containingFile ||
                      strStartsWith (toUrl containingFile) (toUrl storeDir) ||
                      isJsxRuntime im href || isWellKnownCDNURL mu
                    match cacheQuery mu now c1 with
                    | (some r, c2) =>
                      ⟨some ⟨href, ".js", false⟩,
                        { st with fetchPromises :=
                            (href, ⟨mu, autoFetch, some r, false⟩) :: st.fetchPromises },
                        c2, [href]⟩
                    | (none, c2) =>
                      ⟨some ⟨href, ".js", false⟩,
                        { st with fetchPromises :=
                            (href, ⟨mu, autoFetch, none, autoFetch⟩) :: st.fetchPromises },
                        c2, [href]⟩
                  else ⟨some ⟨href, ".js", false⟩, st, c1, []⟩

/-- Completion of a background task created at lines 659-694.  The
task's local query already ran at spawn time (see `TaskInfo`), so the
settled response is the captured spawn-time result — in particular a
passive task (`Promise.resolve(cache.query(url))`, spawned only after
the synchronous path's query missed) always settles with `null` and
its body can only reach the `httpImports` branch — unless an eager
fetch's network request was outstanding, in which case the network
half of `Cache.fetch` runs now, at completion time.  Then the
classification body runs (its inner declaration-file `cache.fetch`
starts only now, after the outer response arrived), and the `finally`
clause drops the in-flight marker.  A URL constructor throw inside the
body is swallowed by the `catch` (no classification). -/
def applyTask (href : String) (info : TaskInfo) (net : String → NetResp) (now : Nat)
    (st : PSt) (c : CacheState) : PSt × CacheState :=
  let fetched : Option CResp × CacheState :=
    if info.netPending then
      let rc := cacheFetchNet info.moduleUrl (net (urlHref info.moduleUrl)) now c
      (some rc.1, rc.2)
    else (info.captured, c)
  let classified : PSt × CacheState :=
    match fetched with
    | (none, c1) => ({ st with httpImports := href :: st.httpImports }, c1)
    | (some res, c1) =>
      if res.redirected then
        ({ st with urlMappings := (href, res.url) :: st.urlMappings }, c1)
      else if respOk res then
        match headersGet "x-typescript-types" res.headers with
        | some d =>
          match parseAbs res.url with
          | none => (st, c1)
          | some baseU =>
            match urlResolve d baseU with
            | none => (st, c1)
            | some dUrl =>
              let rc := cacheFetch dUrl net now c1
              if respOk rc.1 then
                match parseAbs rc.1.url with
                | none => (st, rc.2)
                | some ru =>
                  ({ st with typesMappings := (href, getStorePath ru) :: st.typesMappings }, rc.2)
              else ({ st with badImports := href :: st.badImports }, rc.2)
        | none =>
          if dtsRegexTest info.moduleUrl.pathname then
            ({ st with typesMappings := (href, getStorePath info.moduleUrl) :: st.typesMappings }, c1)
          else ({ st with httpImports := href :: st.httpImports }, c1)
      else ({ st with badImports := href :: st.badImports }, c1)
  ({ classified.1 with fetchPromises := classified.1.fetchPromises.filter (fun kv => kv.1 ≠ href) },
    classified.2)

/-- The referenced-declaration-file background fetch scheduled inside
`#getStorePath` (lines 454-481): guarded by the declaration-file shape
of the URL, no in-flight task and no recorded failure; a non-success
response marks the URL bad; the in-flight marker is added and removed
within the task, leaving `fetchPromises` unchanged as a whole. -/
def applyRefFetch (refUrl : URLm) (net : String → NetResp) (now : Nat)
    (st : PSt) (c : CacheState) : PSt × CacheState :=
  let refHref := urlHref refUrl
  if dtsRegexTest refHref && (List.lookup refHref st.fetchPromises).isNone &&
      !st.badImports.contains refHref then
    let rc := cacheFetch refUrl net now c
    if respOk rc.1 then (st, rc.2)
    else ({ st with badImports := refHref :: st.badImports }, rc.2)
  else (st, c)

/-- One event-loop step of the plugin: a synchronous
`resolveModuleName` call (with arbitrary import map, arguments and
clock, covering configuration changes between calls), the completion
of a pending background task, or a referenced-file background fetch.
The network oracle is per-step, allowing time-varying responses. -/
inductive PStep : PSt × CacheState → PSt × CacheState → Prop
  | resolveCall (fuel : Nat) (im : ImportMapL) (isBlank : Bool) (spec cf : String) (now : Nat)
      (s : PSt × CacheState) :
      PStep s ((resolveModuleName fuel im isBlank spec cf now s.1 s.2).st,
        (resolveModuleName fuel im isBlank spec cf now s.1 s.2).cache)
  | taskComplete (href : String) (info : TaskInfo) (net : String → NetResp) (now : Nat)
      (s : PSt × CacheState) (h : List.lookup href s.1.fetchPromises = some info) :
      PStep s (applyTask href info net now s.1 s.2)
  | refFetch (u : URLm) (net : String → NetResp) (now : Nat) (s : PSt × CacheState) :
      PStep s (applyRefFetch u net now s.1 s.2)

/-- States reachable from a session start (empty collections, any
initial on-disk cache) by interleaving synchronous calls and
background-task completions. -/
def PReach (c0 : CacheState) (s : PSt × CacheState) : Prop :=
  Relation.ReflTransGen PStep (initPSt, c0) s

/-! ## JavaScript heap model for `importMapFrom` (src/import-map.ts:46-60)

`importMapFrom` mutates the objects reachable from its argument
(`validateImports` / `validateScopes` delete entries in place) and the
returned record aliases the argument's `imports` and `scopes` objects.
To make aliasing observable, values are modelled with an explicit
store: objects live at numeric ids and a `ref` value denotes object
identity. -/

inductive JSVal where
  | str (s : String)
  | num (n : Int)
  | jsBool (b : Bool)
  | null
  | undef
  | ref (id : Nat)
deriving Repr, DecidableEq

structure HObj where
  isArray : Bool
  fields : List (String × JSVal)
deriving Repr, DecidableEq

structure Store where
  objs : List (Nat × HObj)
  nextId : Nat
deriving Repr, DecidableEq

def lookupObj (σ : Store) (id : Nat) : Option HObj := List.lookup id σ.objs

def updObj (id : Nat) (f : HObj → HObj) (σ : Store) : Store :=
  { σ with objs := σ.objs.map (fun kv => if kv.1 == id then (kv.1, f kv.2) else kv) }

def allocObj (o : HObj) (σ : Store) : Nat × Store :=
  (σ.nextId, ⟨(σ.nextId, o) :: σ.objs, σ.nextId + 1⟩)

/-- The check `isObject(v)`: a non-null non-array object value. -/
def isObjectV (v : JSVal) (σ : Store) : Bool :=
  match v with
  | JSVal.ref i =>
    match lookupObj σ i with
    | some o => !o.isArray
    | none => false
  | _ => false

def refId : JSVal → Nat
  | JSVal.ref i => i
  | _ => 0

/-- Property read `o[k]`; a missing property is `undefined`. -/
def getFieldV (v : JSVal) (k : String) (σ : Store) : JSVal :=
  match v with
  | JSVal.ref i =>
    match lookupObj σ i with
    | some o => (List.lookup k o.fields).getD JSVal.undef
    | none => JSVal.undef
  | _ => JSVal.undef

/-- Property deletion `delete o[k]`. -/
def deleteField (id : Nat) (k : String) (σ : Store) : Store :=
  updObj id (fun o => ⟨o.isArray, o.fields.filter (fun kv => kv.1 ≠ k)⟩) σ

/-- The deletion condition of `validateImports`: an entry survives iff
its value is truthy and a string (`!v || typeof v !== "string"`
deletes, so the empty string is deleted as falsy). -/
def truthyString : JSVal → Bool
  | JSVal.str s => s ≠ ""
  | _ => false

/-- The loop of `validateImports` over a snapshot of the entries. -/
def validateImportsLoop (id : Nat) : List (String × JSVal) → Store → Store
  | [], σ => σ
  | (k, v) :: rest, σ =>
    if !truthyString v then validateImportsLoop id rest (deleteField id k σ)
    else validateImportsLoop id rest σ

def validateImports (id : Nat) (σ : Store) : Store :=
  match lookupObj σ id with
  | some o => validateImportsLoop id o.fields σ
  | none => σ

/-- The loop of `validateScopes`: object-valued entries are filtered in
place through `validateImports`; other entries are deleted. -/
def validateScopesLoop (id : Nat) : List (String × JSVal) → Store → Store
  | [], σ => σ
  | (k, v) :: rest, σ =>
    if isObjectV v σ then validateScopesLoop id rest (validateImports (refId v) σ)
    else validateScopesLoop id rest (deleteField id k σ)

def validateScopes (id : Nat) (σ : Store) : Store :=
  match lookupObj σ id with
  | some o => validateScopesLoop id o.fields σ
  | none => σ

/-- The record returned by `importMapFrom`; `imports` and `scopes` are
values (refs when they alias the argument's objects). -/
structure ImportMapH where
  baseURL : String
  imports : JSVal
  scopes : JSVal
deriving Repr, DecidableEq

/-- The function `createBlankImportMap`: a fresh record with two fresh empty
objects. -/
def createBlankImportMapH (baseURL : Option String) (σ : Store) : ImportMapH × Store :=
  let b := match urlResolve (baseURL.getD ".") fileRoot with
           | some u => urlHref u
           | none => ""
  let a1 := allocObj ⟨false, []⟩ σ
  let a2 := allocObj ⟨false, []⟩ a1.2
  (⟨b, JSVal.ref a1.1, JSVal.ref a2.1⟩, a2.2)

/-- The function `importMapFrom` (src/import-map.ts:46-60): validate the argument's
`imports` and `scopes` in place and install the very same objects in
the returned map. -/
def importMapFromH (v : JSVal) (baseURL : Option String) (σ : Store) : ImportMapH × Store :=
  let p0 := createBlankImportMapH baseURL σ
  let im0 := p0.1
  let σ1 := p0.2
  if isObjectV v σ1 then
    let imports := getFieldV v "imports" σ1
    let scopes := getFieldV v "scopes" σ1
    let p1 : ImportMapH × Store :=
      if isObjectV imports σ1 then
        ({ im0 with imports := imports }, validateImports (refId imports) σ1)
      else (im0, σ1)
    let p2 : ImportMapH × Store :=
      if isObjectV scopes p1.2 then
        ({ p1.1 with scopes := scopes }, validateScopes (refId scopes) p1.2)
      else p1
    p2
  else (im0, σ1)

/-! ## Concrete fixtures used by witnesses and counterexamples -/

def lodashIM : ImportMapL := ⟨"file:///", [("lodash/", "https://cdn/lodash@4/")], []⟩

/-- Two global-imports tables holding the same two entries in the two
possible insertion orders: a shorter prefix key first, a longer one
first. -/
def orderIM1 : ImportMapL := ⟨"file:///", [("a/", "X/"), ("a/b/", "Y/")], []⟩

def orderIM2 : ImportMapL := ⟨"file:///", [("a/b/", "Y/"), ("a/", "X/")], []⟩

/-- URL of a module served with `cache-control: max-age=0`. -/
def zeroAgeUrl : URLm := ⟨"https", "esm.sh", "/zero.js", ""⟩

/-- A network always answering success with `max-age=0`. -/
def zeroAgeNet : String → NetResp := fun _ =>
  ⟨"https://esm.sh/zero.js", 200, [("cache-control", "max-age=0")], false, true⟩

def emptyCache : CacheState := ⟨[], []⟩

/-- The cache state after fetching the `max-age=0` response at time 5. -/
def zeroAgeCache : CacheState := (cacheFetch zeroAgeUrl zeroAgeNet 5 emptyCache).2

/-- A cache holding a 301 redirect entry for one URL and a plain
success entry for the redirect's target. -/
def redirSourceUrl : URLm := ⟨"https", "esm.sh", "/old.js", ""⟩

def redirTargetUrl : URLm := ⟨"https", "esm.sh", "/new.js", ""⟩

def redirCache : CacheState :=
  ⟨[("https://esm.sh/old.js",
      MetaFile.valid ⟨"https://esm.sh/old.js", 301, [("location", "https://esm.sh/new.js")], 0⟩),
    ("https://esm.sh/new.js",
      MetaFile.valid ⟨"https://esm.sh/new.js", 200, [("cache-control", "max-age=60")], 0⟩)],
   ["/new.js"]⟩

/-- Network oracle for the reachable double-classification trace: a
module `v.js` whose types pointer names `x.js`, a module `x.js` whose
own response carries a types pointer to `d.d.ts`, and the declaration
file `d.d.ts` itself. -/
def traceNet : String → NetResp := fun href =>
  if href = "https://esm.sh/v.js" then
    ⟨"https://esm.sh/v.js", 200,
      [("cache-control", "max-age=3600"), ("x-typescript-types", "/x.js")], false, true⟩
  else if href = "https://esm.sh/x.js" then
    ⟨"https://esm.sh/x.js", 200,
      [("cache-control", "max-age=3600"), ("x-typescript-types", "/d.d.ts")], false, true⟩
  else if href = "https://esm.sh/d.d.ts" then
    ⟨"https://esm.sh/d.d.ts", 200, [("cache-control", "max-age=3600")], false, true⟩
  else ⟨href, 404, [], false, false⟩

def traceXUrl : URLm := ⟨"https", "esm.sh", "/x.js", ""⟩

def traceVUrl : URLm := ⟨"https", "esm.sh", "/v.js", ""⟩

def traceS0 : PSt × CacheState := (initPSt, emptyCache)

/-- Step 1: a synchronous call for `x.js` from a remote containing
file; the URL is unknown and uncached, so an eager background task is
spawned whose network request is left outstanding. -/
def traceR1 : RmnResult :=
  resolveModuleName 2 blankImportMap true "https://esm.sh/x.js" "https://esm.sh/app.js" 0
    traceS0.1 traceS0.2

def traceS1 : PSt × CacheState := (traceR1.st, traceR1.cache)

/-- Step 2: a synchronous call for `v.js` from a remote containing
file; an eager background task is spawned. -/
def traceR2 : RmnResult :=
  resolveModuleName 2 blankImportMap true "https://esm.sh/v.js" "https://esm.sh/app.js" 0
    traceS1.1 traceS1.2

def traceS2 : PSt × CacheState := (traceR2.st, traceR2.cache)

/-- Step 3: the task for `v.js` completes first (network responses
arrive in any order); its types pointer makes the inner fetch cache
`x.js`'s metadata. -/
def traceS3 : PSt × CacheState := applyTask "https://esm.sh/v.js" ⟨traceVUrl, true, none, true⟩
  traceNet 0 traceS2.1 traceS2.2

/-- Step 4: a second synchronous call for `x.js`: the local check now
hits, the types pointer's sibling is not yet cached, so the call falls
through and classifies `x.js` as a runtime module. -/
def traceR4 : RmnResult :=
  resolveModuleName 2 blankImportMap true "https://esm.sh/x.js" "/app.ts" 0 traceS3.1 traceS3.2

def traceS4 : PSt × CacheState := (traceR4.st, traceR4.cache)

/-- Step 5: the network request still outstanding from step 1's eager
task for `x.js` completes; its types pointer fetch succeeds, so
`x.js` is also classified as typed. -/
def traceS5 : PSt × CacheState := applyTask "https://esm.sh/x.js" ⟨traceXUrl, true, none, true⟩
  traceNet 0 traceS4.1 traceS4.2

/-- Concrete store for the `importMapFrom` mutation witness: the
argument at id 0, its `imports` object at id 1, its `scopes` object at
id 2, one inner scope table at id 3. -/
def wStore : Store :=
  ⟨[(0, ⟨false, [("imports", JSVal.ref 1), ("scopes", JSVal.ref 2)]⟩),
    (1, ⟨false, [("a", JSVal.str "x"), ("b", JSVal.num 1), ("c", JSVal.str "")]⟩),
    (2, ⟨false, [("s1", JSVal.ref 3), ("bad", JSVal.str "no")]⟩),
    (3, ⟨false, [("c", JSVal.str "y"), ("d", JSVal.null)]⟩)], 4⟩

/-- A cached success entry for `x.js` used by the bad-import and
dedup witnesses. -/
def plainUrl : URLm := ⟨"https", "esm.sh", "/plain.js", ""⟩

/-- A collection state with one recorded failure. -/
def stBad : PSt := ⟨[], [], [], ["https://esm.sh/bad.js"], []⟩

/-- A cache holding a module whose success metadata carries an
`x-typescript-types` pointer and the sibling declaration file's own
entry. -/
def c3Cache : CacheState :=
  ⟨[("https://esm.sh/m.js",
      MetaFile.valid ⟨"https://esm.sh/m.js", 200,
        [("cache-control", "max-age=60"), ("x-typescript-types", "/m.d.ts")], 0⟩),
    ("https://esm.sh/m.d.ts",
      MetaFile.valid ⟨"https://esm.sh/m.d.ts", 200, [("cache-control", "max-age=60")], 0⟩)],
   ["/m.js", "/m.d.ts"]⟩

/-- A key list without duplicate property names (JavaScript objects
never have duplicate keys). -/
def keysNodup {α : Type} (l : List (String × α)) : Prop := (l.map Prod.fst).Nodup

/-- The cumulative effect on an object's entry list of running the
`validateImports` deletion loop over the snapshot `l`. -/
def purgeImports (l fs : List (String × JSVal)) : List (String × JSVal) :=
  fs.filter (fun kv => !(l.any (fun e => (e.1 == kv.1) && !truthyString e.2)))

/-- Well-formed store: every allocated id is below the allocation
counter (so fresh ids never collide). -/
def StoreWF (σ : Store) : Prop := ∀ kv ∈ σ.objs, kv.1 < σ.nextId

/-- Growth of the four classification collections: every key present
before a step is still present after it (`urlMappings` and
`typesMappings` by key lookup, the two sets by membership). -/
def pstGrows (a b : PSt) : Prop :=
  (∀ k, (List.lookup k a.urlMappings).isSome = true → (List.lookup k b.urlMappings).isSome = true)
  ∧ (∀ k, (List.lookup k a.typesMappings).isSome = true →
      (List.lookup k b.typesMappings).isSome = true)
  ∧ (∀ k, k ∈ a.httpImports → k ∈ b.httpImports)
  ∧ (∀ k, k ∈ a.badImports → k ∈ b.badImports)

/-! ## Helper lemmas -/

theorem firstPrefixMatch_cons (s k v : String) (rest : List (String × String)) :
    firstPrefixMatch s ((k, v) :: rest) =
      if matchKey s k then some (v ++ strDrop s (strLen k)) else firstPrefixMatch s rest := by
  by_cases h1 : strEndsWith k "/" = true <;>
    by_cases h2 : strStartsWith s k = true <;>
    by_cases h3 : strStartsWith s (k ++ "/") = true <;>
    simp [firstPrefixMatch, matchKey, h1, h2, h3]

theorem matchImportUrl_exact (imports : List (String × String)) (specifier v : String)
    (h : List.lookup specifier imports = some v) :
    matchImportUrl specifier imports = some v := by
  unfold matchImportUrl
  rw [h]

theorem matchImportUrl_eq_first (imports : List (String × String)) (specifier : String)
    (h : List.lookup specifier imports = none) :
    matchImportUrl specifier imports = firstPrefixMatch specifier imports := by
  unfold matchImportUrl
  rw [h]

theorem firstPrefixMatch_append_nomatch (s : String) (pre rest : List (String × String))
    (h : ∀ kv ∈ pre, matchKey s kv.1 = false) :
    firstPrefixMatch s (pre ++ rest) = firstPrefixMatch s rest := by
  induction pre with
  | nil => rfl
  | cons a t ih =>
    obtain ⟨k, v⟩ := a
    rw [List.cons_append, firstPrefixMatch_cons, if_neg, ih]
    · intro kv hkv
      exact h kv (List.mem_cons_of_mem _ hkv)
    · simp [h ⟨k, v⟩ (List.mem_cons_self _ _)]

theorem strPrefix_append_drop (s p : String) (h : strStartsWith s p = true) :
    p ++ strDrop s (strLen p) = s := by
  unfold strStartsWith at h
  rw [List.isPrefixOf_iff_prefix] at h
  obtain ⟨t, ht⟩ := h
  apply String.ext
  rw [String.data_append]
  show p.data ++ (strDrop s (strLen p)).data = s.data
  have hd : (strDrop s (strLen p)).data = s.data.drop p.data.length := rfl
  rw [hd, ← ht, List.drop_left]

theorem strDrop_slash (s k : String) (h : strStartsWith s (k ++ "/") = true) :
    strStartsWith (strDrop s (strLen k)) "/" = true := by
  unfold strStartsWith at h ⊢
  rw [List.isPrefixOf_iff_prefix] at h ⊢
  obtain ⟨t, ht⟩ := h
  rw [String.data_append] at ht
  refine ⟨t, ?_⟩
  have hd : (strDrop s (strLen k)).data = s.data.drop k.data.length := rfl
  rw [hd, ← ht, List.append_assoc, List.drop_left]

/-! ## C1: exact match wins; trailing-slash and bare prefix keys append
the remainder -/

/-- C1: for every imports table and specifier, an exact key wins
outright over any prefix match; otherwise the matched key `k` (the
first match of the entry loop, here the one whose predecessors all
fail) yields its target with `specifier.slice(k.length)` appended —
for a key ending in `/` that slice is exactly the remainder of the
specifier after the key (conjunct 3: key ++ slice = specifier), and a
key not ending in `/` requires `key + "/"` as a prefix, so the
appended slice keeps the slash (conjunct 4).  Conjunct 5 checks the
lodash example through `resolve`. -/
theorem C1_match_preference :
    (∀ (imports : List (String × String)) (specifier v : String),
        List.lookup specifier imports = some v → matchImportUrl specifier imports = some v)
  ∧ (∀ (imports pre post : List (String × String)) (specifier k v : String),
        List.lookup specifier imports = none →
        imports = pre ++ (k, v) :: post →
        (∀ kv ∈ pre, matchKey specifier kv.1 = false) →
        matchKey specifier k = true →
        matchImportUrl specifier imports = some (v ++ strDrop specifier (strLen k)))
  ∧ (∀ (specifier k : String), strStartsWith specifier k = true →
        k ++ strDrop specifier (strLen k) = specifier)
  ∧ (∀ (specifier k : String), strStartsWith specifier (k ++ "/") = true →
        strStartsWith (strDrop specifier (strLen k)) "/" = true)
  ∧ resolve lodashIM "lodash/debounce" "/a/app.ts" = some ("https://cdn/lodash@4/debounce", true) := by
  refine ⟨matchImportUrl_exact, ?_, strPrefix_append_drop, strDrop_slash, by decide⟩
  intro imports pre post specifier k v hnone heq hpre hk
  rw [matchImportUrl_eq_first _ _ hnone, heq, firstPrefixMatch_append_nomatch _ _ _ hpre,
    firstPrefixMatch_cons, if_pos]
  simpa using hk

/-- Witness for C1: the prefix-match conjunct applied to the lodash
table. -/
theorem C1_match_preference_witness :
    matchImportUrl "lodash/debounce" [("lodash/", "https://cdn/lodash@4/")] =
      some "https://cdn/lodash@4/debounce" :=
  C1_match_preference.2.1 [("lodash/", "https://cdn/lodash@4/")] [] []
    "lodash/debounce" "lodash/" "https://cdn/lodash@4/" (by decide) rfl
    (by intro kv h; simp at h) (by decide)

/-! ## C8: matching is first-match in insertion order, not
longest-prefix, so the result of `resolve` depends on the order of the
keys -/

/-- C8 counterexample: the same two prefix keys in the two insertion
orders give different results for the same specifier, and in the first
order the shorter key wins although the longer one also matches. -/
theorem C8_counterexample :
    resolve orderIM1 "a/b/c" "/app.ts" = some ("X/b/c", true)
  ∧ resolve orderIM2 "a/b/c" "/app.ts" = some ("Y/c", true)
  ∧ resolve orderIM1 "a/b/c" "/app.ts" ≠ resolve orderIM2 "a/b/c" "/app.ts" := by
  refine ⟨by decide, by decide, by decide⟩

/-- C8 amended: an exact key still wins outright; otherwise
`matchImportUrl` is the entry loop `firstPrefixMatch`, which returns
the target of the first key in iteration (insertion) order that
matches — so when several prefix keys match, the earliest-declared
key determines the target, not the longest one.  At the `resolve`
level: for a map without scope tables (and whenever no scope applies),
a same-origin containing file's resolution is exactly this first-match
rule over the global imports, so `resolve` itself is in general
sensitive to the insertion order of the keys, as the final concrete
inequality shows. -/
theorem C8_amended_first_match :
    (∀ (imports : List (String × String)) (specifier v : String),
        List.lookup specifier imports = some v → matchImportUrl specifier imports = some v)
  ∧ (∀ (imports : List (String × String)) (specifier : String),
        List.lookup specifier imports = none →
        matchImportUrl specifier imports = firstPrefixMatch specifier imports)
  ∧ (∀ (specifier k v : String) (rest : List (String × String)),
        matchKey specifier k = true →
        firstPrefixMatch specifier ((k, v) :: rest) = some (v ++ strDrop specifier (strLen k)))
  ∧ (∀ (specifier k v : String) (rest : List (String × String)),
        matchKey specifier k = false →
        firstPrefixMatch specifier ((k, v) :: rest) = firstPrefixMatch specifier rest)
  ∧ (∀ (base : String) (imports : List (String × String)) (specifier cf : String)
        (baseU cu : URLm),
        parseAbs base = some baseU →
        urlResolve cf baseU = some cu →
        urlOrigin cu = urlOrigin baseU →
        resolve ⟨base, imports, []⟩ specifier cf =
          (match matchImportUrl specifier imports with
           | some m => some (m, true)
           | none => some (specifier, false)))
  ∧ resolve orderIM1 "a/b/c" "/app.ts" ≠ resolve orderIM2 "a/b/c" "/app.ts" := by
  refine ⟨matchImportUrl_exact, matchImportUrl_eq_first, ?_, ?_, ?_, by decide⟩
  · intro specifier k v rest hk
    rw [firstPrefixMatch_cons, if_pos]
    simpa using hk
  · intro specifier k v rest hk
    rw [firstPrefixMatch_cons, if_neg]
    simp [hk]
  · intro base imports specifier cf baseU cu hb hc ho
    simp only [resolve, hb, hc, collectSameOriginScopes, sortScopesDesc, scopeLoop, ho,
      if_true]

/-- Witness for the amended C8: the first-match conjunct applied to
the overlapping-prefix table in its first insertion order, and the
resolve-level bridge applied to the same table as a full import map. -/
theorem C8_amended_first_match_witness :
    firstPrefixMatch "a/b/c" [("a/", "X/"), ("a/b/", "Y/")] = some "X/b/c"
  ∧ resolve ⟨"file:///", [("a/", "X/"), ("a/b/", "Y/")], []⟩ "a/b/c" "/app.ts" =
      (match matchImportUrl "a/b/c" [("a/", "X/"), ("a/b/", "Y/")] with
       | some m => some (m, true)
       | none => some ("a/b/c", false)) :=
  ⟨C8_amended_first_match.2.2.1 "a/b/c" "a/" "X/" [("a/b/", "Y/")] (by decide),
   C8_amended_first_match.2.2.2.2.1 "file:///" [("a/", "X/"), ("a/b/", "Y/")] "a/b/c" "/app.ts"
     ⟨"file", "", "/", ""⟩ ⟨"file", "", "/app.ts", ""⟩ (by decide) (by decide) (by decide)⟩

/-! ## C2: most-specific scope first, regardless of declaration order;
global imports only as fallback -/

theorem scopeLoop_all_fail (pathname specifier : String)
    (l : List (String × List (String × String)))
    (h : ∀ ps ∈ l, matchImportUrl specifier ps.2 = none) :
    scopeLoop pathname specifier l = none := by
  induction l with
  | nil => rfl
  | cons a t ih =>
    obtain ⟨sp, tbl⟩ := a
    have ha : matchImportUrl specifier tbl = none := h ⟨sp, tbl⟩ (List.mem_cons_self _ _)
    have ht : ∀ ps ∈ t, matchImportUrl specifier ps.2 = none :=
      fun ps hps => h ps (List.mem_cons_of_mem _ hps)
    simp only [scopeLoop, ha, ih ht]
    split <;> rfl

theorem mem_insertScopeDesc (x a : String × List (String × String))
    (l : List (String × List (String × String))) (h : x ∈ insertScopeDesc a l) :
    x = a ∨ x ∈ l := by
  induction l with
  | nil =>
    simp only [insertScopeDesc, List.mem_singleton] at h
    exact Or.inl h
  | cons b t ih =>
    simp only [insertScopeDesc] at h
    split at h
    · rcases List.mem_cons.mp h with hb | ht
      · exact Or.inr (List.mem_cons.mpr (Or.inl hb))
      · rcases ih ht with hx | hx
        · exact Or.inl hx
        · exact Or.inr (List.mem_cons.mpr (Or.inr hx))
    · rcases List.mem_cons.mp h with hb | ht
      · exact Or.inl hb
      · exact Or.inr ht

theorem mem_sortScopesDesc (x : String × List (String × String))
    (l : List (String × List (String × String))) (h : x ∈ sortScopesDesc l) : x ∈ l := by
  induction l with
  | nil =>
    simp only [sortScopesDesc] at h
    exact absurd h (List.not_mem_nil x)
  | cons b t ih =>
    simp only [sortScopesDesc] at h
    rcases mem_insertScopeDesc x b (sortScopesDesc t) h with hb | ht
    · exact List.mem_cons.mpr (Or.inl hb)
    · exact List.mem_cons.mpr (Or.inr (ih ht))

theorem collect_tables_mem (baseU : URLm) (origin : String)
    (scopes : List (String × List (String × String)))
    (sos : List (String × List (String × String)))
    (h : collectSameOriginScopes baseU origin scopes = some sos)
    (ps : String × List (String × String)) (hps : ps ∈ sos) :
    ∃ n, (n, ps.2) ∈ scopes := by
  induction scopes generalizing sos with
  | nil =>
    simp only [collectSameOriginScopes] at h
    cases h
    simp at hps
  | cons a t ih =>
    obtain ⟨name, table⟩ := a
    simp only [collectSameOriginScopes] at h
    cases hr : urlResolve name baseU with
    | none => rw [hr] at h; cases h
    | some su =>
      rw [hr] at h
      cases hc : collectSameOriginScopes baseU origin t with
      | none => rw [hc] at h; cases h
      | some acc =>
        rw [hc] at h
        cases h
        by_cases ho : urlOrigin su = origin
        · rw [if_pos ho] at hps
          rcases List.mem_cons.mp hps with hhd | htl
          · exact ⟨name, by rw [hhd]; exact List.mem_cons_self _ _⟩
          · obtain ⟨n, hn⟩ := ih acc hc htl
            exact ⟨n, List.mem_cons_of_mem _ hn⟩
        · rw [if_neg ho] at hps
          obtain ⟨n, hn⟩ := ih acc hc hps
          exact ⟨n, List.mem_cons_of_mem _ hn⟩

/-- C2: (a) with two overlapping scopes whose keys resolve to the
containing document's origin and whose paths both prefix the
containing path, the scope with strictly more path segments is
consulted first and wins whenever its table resolves the specifier —
in both declaration orders; (b) when no scope's table matches the
specifier, `resolve` falls back to the global `imports` table (or
returns the specifier unresolved), provided the containing document
shares the base origin. -/
theorem C2_scope_precedence :
    (∀ (base cf specifier n1 n2 r : String)
        (t1 t2 imports : List (String × String)) (baseU cu s1 s2 : URLm),
        parseAbs base = some baseU →
        urlResolve cf baseU = some cu →
        urlResolve n1 baseU = some s1 → urlOrigin s1 = urlOrigin cu →
        urlResolve n2 baseU = some s2 → urlOrigin s2 = urlOrigin cu →
        strStartsWith cu.pathname s1.pathname = true →
        strStartsWith cu.pathname s2.pathname = true →
        segCount s1.pathname < segCount s2.pathname →
        matchImportUrl specifier t2 = some r →
        resolve ⟨base, imports, [(n1, t1), (n2, t2)]⟩ specifier cf = some (r, true)
          ∧ resolve ⟨base, imports, [(n2, t2), (n1, t1)]⟩ specifier cf = some (r, true))
  ∧ (∀ (im : ImportMapL) (specifier cf : String) (baseU cu : URLm)
        (sos : List (String × List (String × String))),
        parseAbs im.baseURL = some baseU →
        urlResolve cf baseU = some cu →
        collectSameOriginScopes baseU (urlOrigin cu) im.scopes = some sos →
        (∀ nt ∈ im.scopes, matchImportUrl specifier nt.2 = none) →
        urlOrigin cu = urlOrigin baseU →
        resolve im specifier cf =
          (match matchImportUrl specifier im.imports with
           | some m => some (m, true)
           | none => some (specifier, false))) := by
  constructor
  · intro base cf specifier n1 n2 r t1 t2 imports baseU cu s1 s2
      hbase hcf h1 ho1 h2 ho2 hp1 hp2 hseg hmatch
    have hsort1 : sortScopesDesc [(s1.pathname, t1), (s2.pathname, t2)] =
        [(s2.pathname, t2), (s1.pathname, t1)] := by
      simp only [sortScopesDesc, insertScopeDesc, if_pos hseg]
    have hsort2 : sortScopesDesc [(s2.pathname, t2), (s1.pathname, t1)] =
        [(s2.pathname, t2), (s1.pathname, t1)] := by
      simp only [sortScopesDesc, insertScopeDesc, if_neg (Nat.lt_asymm hseg)]
    have hloop : scopeLoop cu.pathname specifier [(s2.pathname, t2), (s1.pathname, t1)] =
        some r := by
      simp only [scopeLoop, hp2, hmatch]
      rfl
    constructor
    · simp only [resolve, hbase, hcf, collectSameOriginScopes, h1, h2, ho1, ho2, if_pos,
        hsort1, hloop]
    · simp only [resolve, hbase, hcf, collectSameOriginScopes, h1, h2, ho1, ho2, if_pos,
        hsort2, hloop]
  · intro im specifier cf baseU cu sos hbase hcf hcollect hfail horigin
    have hloop : scopeLoop cu.pathname specifier (sortScopesDesc sos) = none := by
      apply scopeLoop_all_fail
      intro ps hps
      obtain ⟨n, hn⟩ := collect_tables_mem baseU (urlOrigin cu) im.scopes sos hcollect ps
        (mem_sortScopesDesc ps sos hps)
      exact hfail (n, ps.2) hn
    simp only [resolve, hbase, hcf, hcollect, hloop, if_pos horigin]

/-- Witness for C2: the `/a/` vs `/a/b/` example with the containing
file `/a/b/c.ts`, in both declaration orders. -/
theorem C2_scope_precedence_witness :
    resolve ⟨"file:///", [], [("/a/", [("x", "A")]), ("/a/b/", [("x", "AB")])]⟩ "x" "/a/b/c.ts" =
      some ("AB", true)
  ∧ resolve ⟨"file:///", [], [("/a/b/", [("x", "AB")]), ("/a/", [("x", "A")])]⟩ "x" "/a/b/c.ts" =
      some ("AB", true) :=
  C2_scope_precedence.1 "file:///" "/a/b/c.ts" "x" "/a/" "/a/b/" "AB"
    [("x", "A")] [("x", "AB")] [] ⟨"file", "", "/", ""⟩ ⟨"file", "", "/a/b/c.ts", ""⟩
    ⟨"file", "", "/a/", ""⟩ ⟨"file", "", "/a/b/", ""⟩
    (by decide) (by decide) (by decide) (by decide) (by decide) (by decide)
    (by decide) (by decide) (by decide) (by decide)

/-! ## C6: caching of responses without a usable positive max-age -/

/-- C6 counterexample: a success response with `cache-control:
max-age=0` IS persisted by `Cache.fetch` (the regex captures `0`,
which is not `< 0`), and a query at the creation timestamp returns a
hit, contradicting the claim that such a response is never persisted
as a hit and that query always misses on it. -/
theorem C6_counterexample :
    List.lookup (urlHref zeroAgeUrl) zeroAgeCache.metaStore =
      some (MetaFile.valid ⟨"https://esm.sh/zero.js", 200, [("cache-control", "max-age=0")], 5⟩)
  ∧ (cacheQuery zeroAgeUrl 5 zeroAgeCache).1 =
      some ⟨"https://esm.sh/zero.js", 200, [("cache-control", "max-age=0")], false, true⟩ := by
  refine ⟨by decide, by decide⟩

/-- C6 amended: (a) a success (2xx) response whose `cache-control`
header yields no `max-age` match (missing header, or a negative value,
which the digits-only capture never matches) is returned uncached by
`Cache.fetch`; (b) a stored non-redirect entry without a `max-age`
match is always a miss for `Cache.query`, which deletes it; (c) a
stored `max-age=0` entry is persisted, but any query strictly later
than its creation time misses (and deletes it) — only a query at the
exact creation timestamp can hit. -/
theorem C6_amended_no_usable_max_age :
    (∀ (u : URLm) (net : String → NetResp) (now : Nat) (c c1 : CacheState),
        cacheQuery u now c = (none, c1) →
        netOk (net (urlHref u)) = true →
        (net (urlHref u)).hasBody = true →
        ccMaxAge (headersGet "cache-control" (net (urlHref u)).headers) = none →
        cacheFetch u net now c = (respOfNet (net (urlHref u)), c1))
  ∧ (∀ (u : URLm) (now : Nat) (c : CacheState) (meta : CacheMeta),
        List.lookup (urlHref u) c.metaStore = some (MetaFile.valid meta) →
        locationTruthy meta.headers = false →
        ccMaxAge (headersGet "cache-control" meta.headers) = none →
        cacheQuery u now c = (none, removeMeta (urlHref u) c))
  ∧ (∀ (u : URLm) (now : Nat) (c : CacheState) (meta : CacheMeta),
        List.lookup (urlHref u) c.metaStore = some (MetaFile.valid meta) →
        locationTruthy meta.headers = false →
        ccMaxAge (headersGet "cache-control" meta.headers) = some 0 →
        meta.ctime < now →
        (cacheQuery u now c).1 = none) := by
  refine ⟨?_, ?_, ?_⟩
  · intro u net now c c1 hq hok hbody hcc
    have h302 : (net (urlHref u)).status ≠ 302 := by
      simp only [netOk, Bool.and_eq_true, decide_eq_true_eq] at hok
      omega
    have h301 : (net (urlHref u)).status ≠ 301 := by
      simp only [netOk, Bool.and_eq_true, decide_eq_true_eq] at hok
      omega
    simp only [cacheFetch, cacheFetchNet, hq, h302, h301, hok, hbody, hcc, decide_False,
      Bool.or_self, Bool.false_eq_true, if_false, Bool.not_true, Bool.or_false, if_true]
  · intro u now c meta hm hloc hcc
    simp only [cacheQuery, hm, hloc, hcc, Bool.false_eq_true, if_false]
  · intro u now c meta hm hloc hcc hlt
    simp only [cacheQuery, hm, hloc, hcc, Bool.false_eq_true, if_false]
    have : decide (meta.ctime + 0 * 1000 < now) = true := by
      simp
      omega
    rw [this]
    simp

/-- Witness for the amended C6: part (b) applied to a concrete store
holding an entry with no cache-control header. -/
theorem C6_amended_no_usable_max_age_witness :
    cacheQuery ⟨"https", "esm.sh", "/n.js", ""⟩ 0
        ⟨[("https://esm.sh/n.js",
            MetaFile.valid ⟨"https://esm.sh/n.js", 200, [("content-type", "text/javascript")], 0⟩)],
          []⟩ =
      (none, removeMeta "https://esm.sh/n.js"
        ⟨[("https://esm.sh/n.js",
            MetaFile.valid ⟨"https://esm.sh/n.js", 200, [("content-type", "text/javascript")], 0⟩)],
          []⟩) :=
  C6_amended_no_usable_max_age.2.1 ⟨"https", "esm.sh", "/n.js", ""⟩ 0 _
    ⟨"https://esm.sh/n.js", 200, [("content-type", "text/javascript")], 0⟩
    (by decide) (by decide) (by decide)

/-! ## C7: what `Cache.query` does with stored redirect metadata -/

/-- C7 counterexample: with a stored 301 entry for `old.js` pointing
at `new.js` (whose final 200 metadata is also cached), `query` on
`old.js` returns the 301 redirect record itself — status 301, the
original URL, the `location` header — not the final non-redirect
metadata, and performs no further store access. -/
theorem C7_counterexample :
    (cacheQuery redirSourceUrl 0 redirCache).1 =
      some ⟨"https://esm.sh/old.js", 301, [("location", "https://esm.sh/new.js")], true, false⟩
  ∧ (cacheQuery redirSourceUrl 0 redirCache).2 = redirCache := by
  refine ⟨by decide, by decide⟩

/-- C7 amended: `Cache.query` on a URL whose metadata carries a truthy
`location` header returns that stored redirect record as-is — its
recorded status code, URL and headers — marked with the `redirected`
flag, without following the redirect and without touching the store
(the transitive following happens in the plugin's `resolveModuleName`
through `urlMappings`, not in the cache). -/
theorem C7_amended_single_hop :
    ∀ (u : URLm) (now : Nat) (c : CacheState) (meta : CacheMeta),
      List.lookup (urlHref u) c.metaStore = some (MetaFile.valid meta) →
      locationTruthy meta.headers = true →
      cacheQuery u now c = (some ⟨meta.url, meta.code, meta.headers, true, false⟩, c) := by
  intro u now c meta hm hloc
  simp only [cacheQuery, hm, hloc, if_true]

/-- Witness for the amended C7, at the stored 301 entry. -/
theorem C7_amended_single_hop_witness :
    cacheQuery redirSourceUrl 0 redirCache =
      (some ⟨"https://esm.sh/old.js", 301, [("location", "https://esm.sh/new.js")], true, false⟩,
        redirCache) :=
  C7_amended_single_hop redirSourceUrl 0 redirCache
    ⟨"https://esm.sh/old.js", 301, [("location", "https://esm.sh/new.js")], 0⟩
    (by decide) (by decide)

/-! ## Growth lemmas for the classification collections -/

theorem pstGrows_refl (a : PSt) : pstGrows a a :=
  ⟨fun _ h => h, fun _ h => h, fun _ h => h, fun _ h => h⟩

theorem pstGrows_trans {a b c : PSt} (h1 : pstGrows a b) (h2 : pstGrows b c) : pstGrows a c :=
  ⟨fun k h => h2.1 k (h1.1 k h), fun k h => h2.2.1 k (h1.2.1 k h),
   fun k h => h2.2.2.1 k (h1.2.2.1 k h), fun k h => h2.2.2.2 k (h1.2.2.2 k h)⟩

theorem lookup_cons_isSome {α : Type} (k k2 : String) (v : α) (l : List (String × α))
    (h : (List.lookup k l).isSome = true) : (List.lookup k ((k2, v) :: l)).isSome = true := by
  simp only [List.lookup]
  split
  · rfl
  · exact h

theorem lookup_cons_self {α : Type} (k : String) (v : α) (l : List (String × α)) :
    List.lookup k ((k, v) :: l) = some v := by
  simp [List.lookup]

theorem lookup_filter_ne_self {α : Type} (k : String) (l : List (String × α)) :
    List.lookup k (l.filter (fun kv => kv.1 ≠ k)) = none := by
  induction l with
  | nil => rfl
  | cons a t ih =>
    by_cases h : a.1 = k
    · simp only [List.filter]
      rw [show (decide (a.1 ≠ k)) = false by simp [h]]
      exact ih
    · simp only [List.filter]
      rw [show (decide (a.1 ≠ k)) = true by simp [h]]
      simp only [List.lookup]
      rw [show (k == a.1) = false by simp [Ne.symm h]]
      exact ih

theorem pstGrows_url (st : PSt) (k v : String) :
    pstGrows st { st with urlMappings := (k, v) :: st.urlMappings } :=
  ⟨fun k2 h => lookup_cons_isSome k2 k v _ h, fun _ h => h, fun _ h => h, fun _ h => h⟩

theorem pstGrows_types (st : PSt) (k v : String) :
    pstGrows st { st with typesMappings := (k, v) :: st.typesMappings } :=
  ⟨fun _ h => h, fun k2 h => lookup_cons_isSome k2 k v _ h, fun _ h => h, fun _ h => h⟩

theorem pstGrows_http (st : PSt) (k : String) :
    pstGrows st { st with httpImports := k :: st.httpImports } :=
  ⟨fun _ h => h, fun _ h => h, fun _ h => List.mem_cons_of_mem _ h, fun _ h => h⟩

theorem pstGrows_bad (st : PSt) (k : String) :
    pstGrows st { st with badImports := k :: st.badImports } :=
  ⟨fun _ h => h, fun _ h => h, fun _ h => h, fun _ h => List.mem_cons_of_mem _ h⟩

theorem pstGrows_fp (st : PSt) (k : String) (ti : TaskInfo) :
    pstGrows st { st with fetchPromises := (k, ti) :: st.fetchPromises } :=
  ⟨fun _ h => h, fun _ h => h, fun _ h => h, fun _ h => h⟩

theorem pstGrows_fpfilter (st : PSt) (f : String × TaskInfo → Bool) :
    pstGrows st { st with fetchPromises := st.fetchPromises.filter f } :=
  ⟨fun _ h => h, fun _ h => h, fun _ h => h, fun _ h => h⟩

/-- No branch of a synchronous `resolveModuleName` call (including its
recursive redirect and store-reconstruction re-entries) removes a key
from any of the four classification collections. -/
theorem resolveModuleName_grows (fuel : Nat) : ∀ (im : ImportMapL) (isBlank : Bool)
    (spec cf : String) (now : Nat) (st : PSt) (c : CacheState),
    pstGrows st (resolveModuleName fuel im isBlank spec cf now st c).st := by
  induction fuel with
  | zero => intro im isBlank spec cf now st c; exact pstGrows_refl st
  | succ n ih =>
    intro im isBlank spec cf now st c
    simp only [resolveModuleName]
    split
    · exact pstGrows_refl st
    · split
      · exact pstGrows_refl st
      · split
        · split
          · split
            · exact pstGrows_refl st
            · exact ih _ _ _ _ _ _ _
          · exact pstGrows_refl st
        · split
          · exact pstGrows_refl st
          · split
            · exact ih _ _ _ _ _ _ _
            · split
              · exact pstGrows_refl st
              · split
                · exact pstGrows_refl st
                · split
                  · split
                    · exact pstGrows_trans (pstGrows_url st _ _) (ih _ _ _ _ _ _ _)
                    · split
                      · split
                        · exact pstGrows_refl st
                        · split
                          · split
                            · exact pstGrows_refl st
                            · exact pstGrows_types st _ _
                          · exact pstGrows_http st _
                      · split
                        · exact pstGrows_types st _ _
                        · exact pstGrows_http st _
                  · split
                    · split
                      · exact pstGrows_fp _ _ _
                      · exact pstGrows_fp _ _ _
                    · exact pstGrows_refl st

/-- A task completion only adds classifications (it removes its own
in-flight marker, which is not one of the four collections). -/
theorem applyTask_grows (href : String) (info : TaskInfo) (net : String → NetResp) (now : Nat)
    (st : PSt) (c : CacheState) : pstGrows st (applyTask href info net now st c).1 := by
  simp only [applyTask]
  refine pstGrows_trans ?_ (pstGrows_fpfilter _ _)
  split
  · exact pstGrows_http st _
  · split
    · exact pstGrows_url st _ _
    · split
      · split
        · split
          · exact pstGrows_refl st
          · split
            · exact pstGrows_refl st
            · split
              · split
                · exact pstGrows_refl st
                · exact pstGrows_types st _ _
              · exact pstGrows_bad st _
        · split
          · exact pstGrows_types st _ _
          · exact pstGrows_http st _
      · exact pstGrows_bad st _

theorem applyRefFetch_grows (u : URLm) (net : String → NetResp) (now : Nat)
    (st : PSt) (c : CacheState) : pstGrows st (applyRefFetch u net now st c).1 := by
  simp only [applyRefFetch]
  split
  · split
    · exact pstGrows_refl st
    · exact pstGrows_bad st _
  · exact pstGrows_refl st

theorem pstep_grows {s t : PSt × CacheState} (h : PStep s t) : pstGrows s.1 t.1 := by
  cases h with
  | resolveCall fuel im isBlank spec cf now s =>
    exact resolveModuleName_grows fuel im isBlank spec cf now s.1 s.2
  | taskComplete href info net now s hl => exact applyTask_grows href info net now s.1 s.2
  | refFetch u net now s => exact applyRefFetch_grows u net now s.1 s.2

theorem getStorePath_slash (u : URLm) : strStartsWith (getStorePath u) "/" = true := by
  simp only [getStorePath, storeDir, strStartsWith]
  split <;> rfl

/-! ## C4: failures are final -/

/-- C4: (a) a `resolveModuleName` call whose computed remote module URL
is already in `badImports` returns no resolution, leaves the
collections and the cache untouched, and spawns no background task —
the `badImports` check precedes every cache access and the task-spawn
block; (b) no plugin operation (synchronous call, task completion or
referenced-file fetch) ever removes a URL from `badImports`. -/
theorem C4_bad_is_final :
    (∀ (fuel : Nat) (im : ImportMapL) (isBlank : Bool) (spec cf : String) (now : Nat)
        (st : PSt) (c : CacheState) (spec2 : String) (imr : Bool) (mu : URLm),
        rmnSpecifier im isBlank spec cf = (spec2, imr) →
        (!imr && !isHttpUrl spec2 && !isRelativePath spec2) = false →
        rmnModuleUrl spec2 cf = some mu →
        mu.scheme ≠ "file" →
        st.badImports.contains (urlHref mu) = true →
        resolveModuleName (fuel + 1) im isBlank spec cf now st c = ⟨none, st, c, []⟩)
  ∧ (∀ s t : PSt × CacheState, PStep s t → ∀ k, k ∈ s.1.badImports → k ∈ t.1.badImports) := by
  constructor
  · intro fuel im isBlank spec cf now st c spec2 imr mu hsp hguard hmu hfile hbad
    simp only [resolveModuleName, hsp, hguard, hmu, hfile, hbad, Bool.false_eq_true, if_false,
      if_true, ite_false, ite_true]
  · intro s t h k hk
    exact (pstep_grows h).2.2.2 k hk

/-- Witness for C4: a URL recorded bad is declined with nothing else
happening. -/
theorem C4_bad_is_final_witness :
    resolveModuleName 1 blankImportMap true "https://esm.sh/bad.js" "/app.ts" 0 stBad emptyCache =
      ⟨none, stBad, emptyCache, []⟩ :=
  C4_bad_is_final.1 0 blankImportMap true "https://esm.sh/bad.js" "/app.ts" 0 stBad emptyCache
    "https://esm.sh/bad.js" false ⟨"https", "esm.sh", "/bad.js", ""⟩
    (by decide) (by decide) (by decide) (by decide) (by decide)

/-! ## C5: at most one in-flight background task per URL -/

/-- C5: (a) while a task for the module URL is recorded in
`fetchPromises`, a further call for the same uncached URL spawns
nothing and leaves the collections unchanged; (b) two calls for the
same unknown, uncached URL within one synchronous turn (no completion
in between) spawn exactly one task — the first call spawns it and
records it, the second call spawns none and changes nothing; (c) a
task completion always removes its own in-flight marker. -/
theorem C5_task_dedup :
    (∀ (fuel : Nat) (im : ImportMapL) (isBlank : Bool) (spec cf : String) (now : Nat)
        (st : PSt) (c c1 : CacheState) (spec2 : String) (imr : Bool) (mu : URLm)
        (info : TaskInfo),
        rmnSpecifier im isBlank spec cf = (spec2, imr) →
        (!imr && !isHttpUrl spec2 && !isRelativePath spec2) = false →
        rmnModuleUrl spec2 cf = some mu →
        mu.scheme ≠ "file" →
        st.badImports.contains (urlHref mu) = false →
        List.lookup (urlHref mu) st.urlMappings = none →
        List.lookup (urlHref mu) st.typesMappings = none →
        st.httpImports.contains (urlHref mu) = false →
        cacheQuery mu now c = (none, c1) →
        List.lookup (urlHref mu) st.fetchPromises = some info →
        resolveModuleName (fuel + 1) im isBlank spec cf now st c =
          ⟨some ⟨urlHref mu, ".js", false⟩, st, c1, []⟩)
  ∧ (∀ (fuel : Nat) (im : ImportMapL) (isBlank : Bool) (spec cf : String) (now : Nat)
        (st : PSt) (c : CacheState) (spec2 : String) (imr : Bool) (mu : URLm),
        rmnSpecifier im isBlank spec cf = (spec2, imr) →
        (!imr && !isHttpUrl spec2 && !isRelativePath spec2) = false →
        rmnModuleUrl spec2 cf = some mu →
        mu.scheme ≠ "file" →
        st.badImports.contains (urlHref mu) = false →
        List.lookup (urlHref mu) st.urlMappings = none →
        List.lookup (urlHref mu) st.typesMappings = none →
        st.httpImports.contains (urlHref mu) = false →
        cacheQuery mu now c = (none, c) →
        List.lookup (urlHref mu) st.fetchPromises = none →
        (resolveModuleName (fuel + 1) im isBlank spec cf now st c).spawned = [urlHref mu]
          ∧ (resolveModuleName (fuel + 1) im isBlank spec cf now
              (resolveModuleName (fuel + 1) im isBlank spec cf now st c).st
              (resolveModuleName (fuel + 1) im isBlank spec cf now st c).cache).spawned = []
          ∧ (resolveModuleName (fuel + 1) im isBlank spec cf now
              (resolveModuleName (fuel + 1) im isBlank spec cf now st c).st
              (resolveModuleName (fuel + 1) im isBlank spec cf now st c).cache).st =
            (resolveModuleName (fuel + 1) im isBlank spec cf now st c).st)
  ∧ (∀ (href : String) (info : TaskInfo) (net : String → NetResp) (now : Nat)
        (st : PSt) (c : CacheState),
        List.lookup href (applyTask href info net now st c).1.fetchPromises = none) := by
  refine ⟨?_, ?_, ?_⟩
  · intro fuel im isBlank spec cf now st c c1 spec2 imr mu info
      hsp hguard hmu hfile hbad hurl htyp hhttp hq hfp
    simp only [resolveModuleName, hsp, hguard, hmu, hfile, hbad, hurl, htyp, hhttp, hq, hfp,
      Option.isNone_some, Bool.false_eq_true, if_false, if_true, ite_false, ite_true]
  · intro fuel im isBlank spec cf now st c spec2 imr mu
      hsp hguard hmu hfile hbad hurl htyp hhttp hq hfp
    have h1 : resolveModuleName (fuel + 1) im isBlank spec cf now st c =
        ⟨some ⟨urlHref mu, ".js", false⟩,
          { st with fetchPromises :=
              (urlHref mu,
                ⟨mu, imr || isHttpUrl cf || strStartsWith (toUrl cf) (toUrl storeDir) ||
                    isJsxRuntime im (urlHref mu) || isWellKnownCDNURL mu,
                  none,
                  imr || isHttpUrl cf || strStartsWith (toUrl cf) (toUrl storeDir) ||
                    isJsxRuntime im (urlHref mu) || isWellKnownCDNURL mu⟩) :: st.fetchPromises },
          c, [urlHref mu]⟩ := by
      simp only [resolveModuleName, hsp, hguard, hmu, hfile, hbad, hurl, htyp, hhttp, hq, hfp,
        Option.isNone_none, Bool.false_eq_true, if_false, if_true, ite_false, ite_true]
    rw [h1]
    have h2 : resolveModuleName (fuel + 1) im isBlank spec cf now
        { st with fetchPromises :=
            (urlHref mu,
              ⟨mu, imr || isHttpUrl cf || strStartsWith (toUrl cf) (toUrl storeDir) ||
                  isJsxRuntime im (urlHref mu) || isWellKnownCDNURL mu,
                none,
                imr || isHttpUrl cf || strStartsWith (toUrl cf) (toUrl storeDir) ||
                  isJsxRuntime im (urlHref mu) || isWellKnownCDNURL mu⟩) :: st.fetchPromises }
        c =
        ⟨some ⟨urlHref mu, ".js", false⟩,
          { st with fetchPromises :=
              (urlHref mu,
                ⟨mu, imr || isHttpUrl cf || strStartsWith (toUrl cf) (toUrl storeDir) ||
                    isJsxRuntime im (urlHref mu) || isWellKnownCDNURL mu,
                  none,
                  imr || isHttpUrl cf || strStartsWith (toUrl cf) (toUrl storeDir) ||
                    isJsxRuntime im (urlHref mu) || isWellKnownCDNURL mu⟩) :: st.fetchPromises },
          c, []⟩ := by
      simp only [resolveModuleName, hsp, hguard, hmu, hfile, hbad, hurl, htyp, hhttp, hq,
        lookup_cons_self, Option.isNone_some, Bool.false_eq_true, if_false, if_true,
        ite_false, ite_true]
    rw [h2]
    exact ⟨rfl, rfl, rfl⟩
  · intro href info net now st c
    exact lookup_filter_ne_self href _

/-- Witness for C5: two synchronous calls for the same uncached URL
from an empty session create exactly one task. -/
theorem C5_task_dedup_witness :
    (resolveModuleName 1 blankImportMap true "https://esm.sh/plain.js" "/app.ts" 0 initPSt
        emptyCache).spawned = ["https://esm.sh/plain.js"]
  ∧ (resolveModuleName 1 blankImportMap true "https://esm.sh/plain.js" "/app.ts" 0
      (resolveModuleName 1 blankImportMap true "https://esm.sh/plain.js" "/app.ts" 0 initPSt
        emptyCache).st
      (resolveModuleName 1 blankImportMap true "https://esm.sh/plain.js" "/app.ts" 0 initPSt
        emptyCache).cache).spawned = []
  ∧ (resolveModuleName 1 blankImportMap true "https://esm.sh/plain.js" "/app.ts" 0
      (resolveModuleName 1 blankImportMap true "https://esm.sh/plain.js" "/app.ts" 0 initPSt
        emptyCache).st
      (resolveModuleName 1 blankImportMap true "https://esm.sh/plain.js" "/app.ts" 0 initPSt
        emptyCache).cache).st =
    (resolveModuleName 1 blankImportMap true "https://esm.sh/plain.js" "/app.ts" 0 initPSt
      emptyCache).st :=
  C5_task_dedup.2.1 0 blankImportMap true "https://esm.sh/plain.js" "/app.ts" 0 initPSt
    emptyCache "https://esm.sh/plain.js" false plainUrl
    (by decide) (by decide) (by decide) (by decide) (by decide) (by decide) (by decide)
    (by decide) (by decide) (by decide)

/-! ## C3: declaration-file association -/

/-- C3: (1) when the local check hits a non-redirect response carrying
an `x-typescript-types` header naming a sibling declaration file
(resolved against the module URL) whose own cache entry is also a hit,
the recorded and returned type path is the store path of the sibling's
URL — not the module URL itself (the store path is rooted at the cache
directory, the module URL is not) — and it is memoized under the
module's href; (2) a module URL whose path already ends in
`.d.ts`/`.d.mts`/`.d.cts` (and whose response carries no types header)
is recorded with its own store path as its own type source; (3) a
module href present in `typesMappings` is served from it by every
subsequent call, returning the recorded path. -/
theorem C3_types_association :
    (∀ (fuel : Nat) (im : ImportMapL) (isBlank : Bool) (spec cf : String) (now : Nat)
        (st : PSt) (c c1 c2 : CacheState) (spec2 : String) (imr : Bool)
        (mu dUrl ru : URLm) (res dtsRes : CResp) (d : String),
        rmnSpecifier im isBlank spec cf = (spec2, imr) →
        (!imr && !isHttpUrl spec2 && !isRelativePath spec2) = false →
        rmnModuleUrl spec2 cf = some mu →
        mu.scheme ≠ "file" →
        st.badImports.contains (urlHref mu) = false →
        List.lookup (urlHref mu) st.urlMappings = none →
        List.lookup (urlHref mu) st.typesMappings = none →
        st.httpImports.contains (urlHref mu) = false →
        cacheQuery mu now c = (some res, c1) →
        res.redirected = false →
        headersGet "x-typescript-types" res.headers = some d →
        urlResolve d mu = some dUrl →
        cacheQuery dUrl now c1 = (some dtsRes, c2) →
        dtsRes.url = urlHref dUrl →
        parseAbs dtsRes.url = some ru →
        strStartsWith (urlHref mu) "/" = false →
        resolveModuleName (fuel + 1) im isBlank spec cf now st c =
          ⟨some ⟨getStorePath ru, extOrDefault (getStorePath ru), true⟩,
            { st with typesMappings := (urlHref mu, getStorePath ru) :: st.typesMappings },
            c2, []⟩
          ∧ List.lookup (urlHref mu)
              (resolveModuleName (fuel + 1) im isBlank spec cf now st c).st.typesMappings =
            some (getStorePath ru)
          ∧ getStorePath ru ≠ urlHref mu)
  ∧ (∀ (fuel : Nat) (im : ImportMapL) (isBlank : Bool) (spec cf : String) (now : Nat)
        (st : PSt) (c c1 : CacheState) (spec2 : String) (imr : Bool)
        (mu : URLm) (res : CResp),
        rmnSpecifier im isBlank spec cf = (spec2, imr) →
        (!imr && !isHttpUrl spec2 && !isRelativePath spec2) = false →
        rmnModuleUrl spec2 cf = some mu →
        mu.scheme ≠ "file" →
        st.badImports.contains (urlHref mu) = false →
        List.lookup (urlHref mu) st.urlMappings = none →
        List.lookup (urlHref mu) st.typesMappings = none →
        st.httpImports.contains (urlHref mu) = false →
        cacheQuery mu now c = (some res, c1) →
        res.redirected = false →
        headersGet "x-typescript-types" res.headers = none →
        dtsRegexTest mu.pathname = true →
        resolveModuleName (fuel + 1) im isBlank spec cf now st c =
          ⟨some ⟨getStorePath mu, extOrDefault (getStorePath mu), true⟩,
            { st with typesMappings := (urlHref mu, getStorePath mu) :: st.typesMappings },
            c1, []⟩)
  ∧ (∀ (fuel : Nat) (im : ImportMapL) (isBlank : Bool) (spec cf : String) (now : Nat)
        (st : PSt) (c : CacheState) (spec2 : String) (imr : Bool) (mu : URLm) (f : String),
        rmnSpecifier im isBlank spec cf = (spec2, imr) →
        (!imr && !isHttpUrl spec2 && !isRelativePath spec2) = false →
        rmnModuleUrl spec2 cf = some mu →
        mu.scheme ≠ "file" →
        st.badImports.contains (urlHref mu) = false →
        List.lookup (urlHref mu) st.urlMappings = none →
        List.lookup (urlHref mu) st.typesMappings = some f →
        resolveModuleName (fuel + 1) im isBlank spec cf now st c =
          ⟨some ⟨f, extOrDefault f, true⟩, st, c, []⟩) := by
  refine ⟨?_, ?_, ?_⟩
  · intro fuel im isBlank spec cf now st c c1 c2 spec2 imr mu dUrl ru res dtsRes d
      hsp hguard hmu hfile hbad hurl htyp hhttp hq hred hdts hdu hq2 hsib hru hnoslash
    have hmain : resolveModuleName (fuel + 1) im isBlank spec cf now st c =
        ⟨some ⟨getStorePath ru, extOrDefault (getStorePath ru), true⟩,
          { st with typesMappings := (urlHref mu, getStorePath ru) :: st.typesMappings },
          c2, []⟩ := by
      simp only [resolveModuleName, hsp, hguard, hmu, hfile, hbad, hurl, htyp, hhttp, hq, hred,
        hdts, hdu, hq2, hru, Bool.false_eq_true, if_false, if_true, ite_false, ite_true]
    refine ⟨hmain, ?_, ?_⟩
    · rw [hmain]
      exact lookup_cons_self _ _ _
    · intro heq
      have h1 := getStorePath_slash ru
      rw [heq, hnoslash] at h1
      cases h1
  · intro fuel im isBlank spec cf now st c c1 spec2 imr mu res
      hsp hguard hmu hfile hbad hurl htyp hhttp hq hred hdts hpath
    simp only [resolveModuleName, hsp, hguard, hmu, hfile, hbad, hurl, htyp, hhttp, hq, hred,
      hdts, hpath, Bool.false_eq_true, if_false, if_true, ite_false, ite_true]
  · intro fuel im isBlank spec cf now st c spec2 imr mu f
      hsp hguard hmu hfile hbad hurl htyp
    simp only [resolveModuleName, hsp, hguard, hmu, hfile, hbad, hurl, htyp,
      Bool.false_eq_true, if_false, if_true, ite_false, ite_true]

/-- Witness for C3: a cached module with a types pointer to its
sibling declaration file resolves to the sibling's store path. -/
theorem C3_types_association_witness :
    resolveModuleName 1 blankImportMap true "https://esm.sh/m.js" "/app.ts" 0 initPSt c3Cache =
      ⟨some ⟨"/home/user/.cache/esm.sh/m.d.ts", ".d.ts", true⟩,
        { initPSt with typesMappings :=
            [("https://esm.sh/m.js", "/home/user/.cache/esm.sh/m.d.ts")] },
        c3Cache, []⟩
  ∧ List.lookup "https://esm.sh/m.js"
      (resolveModuleName 1 blankImportMap true "https://esm.sh/m.js" "/app.ts" 0 initPSt
        c3Cache).st.typesMappings = some "/home/user/.cache/esm.sh/m.d.ts"
  ∧ "/home/user/.cache/esm.sh/m.d.ts" ≠ "https://esm.sh/m.js" :=
  C3_types_association.1 0 blankImportMap true "https://esm.sh/m.js" "/app.ts" 0 initPSt
    c3Cache c3Cache c3Cache "https://esm.sh/m.js" false
    ⟨"https", "esm.sh", "/m.js", ""⟩ ⟨"https", "esm.sh", "/m.d.ts", ""⟩
    ⟨"https", "esm.sh", "/m.d.ts", ""⟩
    ⟨"https://esm.sh/m.js", 200,
      [("cache-control", "max-age=60"), ("x-typescript-types", "/m.d.ts")], false, true⟩
    ⟨"https://esm.sh/m.d.ts", 200, [("cache-control", "max-age=60")], false, true⟩
    "/m.d.ts"
    (by decide) (by decide) (by decide) (by decide) (by decide) (by decide) (by decide)
    (by decide) (by decide) (by decide) (by decide) (by decide) (by decide) (by decide)
    (by decide) (by decide)

/-! ## C9: the four collections are monotone but not mutually
exclusive -/

/-- C9 counterexample: an explicit five-step interleaving of
synchronous calls and task completions.  Two eager tasks are spawned
for `x.js` and `v.js` (both from a remote containing file, so each
holds a still-outstanding network request), `v.js`'s response arrives
first and its types pointer caches `x.js`'s typed metadata, a second
synchronous call for `x.js` then hits that entry but misses its
uncached sibling and records `x.js` in `httpImports`, and finally
`x.js`'s own network response arrives and records it in
`typesMappings` — so `x.js` is a member of BOTH `httpImports` and
`typesMappings`, refuting the at-most-one-collection invariant. -/
theorem C9_counterexample :
    PReach emptyCache traceS5
  ∧ "https://esm.sh/x.js" ∈ traceS5.1.httpImports
  ∧ (List.lookup "https://esm.sh/x.js" traceS5.1.typesMappings).isSome = true := by
  refine ⟨?_, by decide, by decide⟩
  have h1 : PStep traceS0 traceS1 :=
    PStep.resolveCall 2 blankImportMap true "https://esm.sh/x.js" "https://esm.sh/app.js" 0
      traceS0
  have h2 : PStep traceS1 traceS2 :=
    PStep.resolveCall 2 blankImportMap true "https://esm.sh/v.js" "https://esm.sh/app.js" 0
      traceS1
  have h3 : PStep traceS2 traceS3 :=
    PStep.taskComplete "https://esm.sh/v.js" ⟨traceVUrl, true, none, true⟩ traceNet 0 traceS2
      (by decide)
  have h4 : PStep traceS3 traceS4 :=
    PStep.resolveCall 2 blankImportMap true "https://esm.sh/x.js" "/app.ts" 0 traceS3
  have h5 : PStep traceS4 traceS5 :=
    PStep.taskComplete "https://esm.sh/x.js" ⟨traceXUrl, true, none, true⟩ traceNet 0 traceS4
      (by decide)
  exact Relation.ReflTransGen.head h1 (Relation.ReflTransGen.head h2
    (Relation.ReflTransGen.head h3 (Relation.ReflTransGen.head h4
      (Relation.ReflTransGen.single h5))))

/-- C9 amended: what does hold of the four collections is the
one-directional half of the claim — along every sequence of plugin
steps (synchronous calls, task completions, referenced-file fetches),
membership in each of `urlMappings`, `typesMappings`, `httpImports`
and `badImports` is never lost, so no URL moves from a resolved
classification back to unknown within a session; mutual exclusion,
however, is not an invariant (see the counterexample). -/
theorem C9_amended_monotone :
    ∀ s t : PSt × CacheState, Relation.ReflTransGen PStep s t → pstGrows s.1 t.1 := by
  intro s t h
  induction h with
  | refl => exact pstGrows_refl _
  | tail _ hstep ih => exact pstGrows_trans ih (pstep_grows hstep)

/-- Witness for the amended C9: growth along the first concrete trace
step. -/
theorem C9_amended_monotone_witness : pstGrows traceS0.1 traceS1.1 :=
  C9_amended_monotone traceS0 traceS1
    (Relation.ReflTransGen.single
      (PStep.resolveCall 2 blankImportMap true "https://esm.sh/x.js" "https://esm.sh/app.js" 0
        traceS0))

/-! ## Heap lemmas for C10 -/

theorem lookup_map_upd_self (id : Nat) (f : HObj → HObj) (l : List (Nat × HObj)) :
    List.lookup id (l.map (fun kv => if kv.1 == id then (kv.1, f kv.2) else kv)) =
      (List.lookup id l).map f := by
  induction l with
  | nil => rfl
  | cons a t ih =>
    obtain ⟨k, o⟩ := a
    simp only [List.map]
    cases hk : (k == id) with
    | true =>
      have hk3 : k = id := by simpa using hk
      subst hk3
      rw [if_pos rfl]
      show List.lookup k ((k, f o) :: _) = (List.lookup k ((k, o) :: t)).map f
      simp only [List.lookup]
      rw [show (k == k) = true by simp]
      rfl
    | false =>
      have hne : ¬k = id := by simpa using hk
      rw [if_neg (by simp [hk])]
      show List.lookup id ((k, o) :: _) = (List.lookup id ((k, o) :: t)).map f
      simp only [List.lookup]
      rw [show (id == k) = false by simp [Ne.symm hne]]
      exact ih

theorem lookup_map_upd_ne (id : Nat) (f : HObj → HObj) (l : List (Nat × HObj)) (j : Nat)
    (h : j ≠ id) :
    List.lookup j (l.map (fun kv => if kv.1 == id then (kv.1, f kv.2) else kv)) =
      List.lookup j l := by
  induction l with
  | nil => rfl
  | cons a t ih =>
    obtain ⟨k, o⟩ := a
    simp only [List.map]
    cases hk : (k == id) with
    | true =>
      have hk3 : k = id := by simpa using hk
      subst hk3
      rw [if_pos rfl]
      show List.lookup j ((k, f o) :: _) = List.lookup j ((k, o) :: t)
      simp only [List.lookup]
      rw [show (j == k) = false by simp [h]]
      exact ih
    | false =>
      rw [if_neg (by simp [hk])]
      show List.lookup j ((k, o) :: _) = List.lookup j ((k, o) :: t)
      simp only [List.lookup]
      cases hj : (j == k) with
      | true => rfl
      | false => exact ih

theorem lookupObj_updObj_self (id : Nat) (f : HObj → HObj) (σ : Store) :
    lookupObj (updObj id f σ) id = (lookupObj σ id).map f :=
  lookup_map_upd_self id f σ.objs

theorem lookupObj_updObj_ne (id : Nat) (f : HObj → HObj) (σ : Store) (j : Nat) (h : j ≠ id) :
    lookupObj (updObj id f σ) j = lookupObj σ j :=
  lookup_map_upd_ne id f σ.objs j h

theorem lookupObj_alloc (o : HObj) (σ : Store) (j : Nat) (h : j ≠ σ.nextId) :
    lookupObj (allocObj o σ).2 j = lookupObj σ j := by
  show List.lookup j ((σ.nextId, o) :: σ.objs) = _
  simp only [List.lookup]
  rw [show (j == σ.nextId) = false by simp [h]]
  rfl

theorem updObj_updObj (id : Nat) (f g : HObj → HObj) (σ : Store) :
    updObj id f (updObj id g σ) = updObj id (fun o => f (g o)) σ := by
  simp only [updObj, List.map_map]
  congr 1
  refine congrArg (fun h => List.map h σ.objs) ?_
  funext kv
  simp only [Function.comp]
  cases hk : (kv.1 == id) <;> simp [hk]

theorem validateImportsLoop_eq (id : Nat) :
    ∀ (l : List (String × JSVal)) (σ : Store),
    validateImportsLoop id l σ =
      updObj id (fun o => ⟨o.isArray, purgeImports l o.fields⟩) σ := by
  intro l
  induction l with
  | nil =>
    intro σ
    show σ = _
    have hfun : (fun o : HObj => (⟨o.isArray, purgeImports [] o.fields⟩ : HObj)) = fun o => o := by
      funext o
      simp only [purgeImports, List.any_nil, Bool.not_false]
      rw [List.filter_true]
    rw [hfun]
    simp only [updObj]
    have : σ.objs.map (fun kv => if kv.1 == id then (kv.1, kv.2) else kv) = σ.objs := by
      have : (fun kv : Nat × HObj => if kv.1 == id then (kv.1, kv.2) else kv) = fun kv => kv := by
        funext kv
        cases hk : (kv.1 == id) with
        | true => rw [if_pos rfl]
        | false => rw [if_neg (by simp)]
      rw [this, List.map_id']
    rw [this]
  | cons a rest ih =>
    intro σ
    obtain ⟨k, v⟩ := a
    show (if !truthyString v then validateImportsLoop id rest (deleteField id k σ)
          else validateImportsLoop id rest σ) = _
    cases ht : truthyString v with
    | false =>
      rw [if_pos (by simp [ht]), ih, deleteField, updObj_updObj]
      congr 1
      funext o
      simp only []
      congr 1
      show purgeImports rest (o.fields.filter (fun kv => kv.1 ≠ k)) =
        purgeImports ((k, v) :: rest) o.fields
      simp only [purgeImports, List.filter_filter]
      apply List.filter_congr
      intro kv _
      simp only [List.any_cons, ht, Bool.not_false, Bool.and_true, Bool.not_or]
      by_cases hkk : kv.1 = k
      · rw [show (k == kv.1) = true by simp [hkk], show (decide (kv.1 ≠ k)) = false by simp [hkk]]
        simp
      · rw [show (k == kv.1) = false by simp [Ne.symm hkk],
          show (decide (kv.1 ≠ k)) = true by simp [hkk]]
        simp
    | true =>
      rw [if_neg (by simp [ht]), ih]
      congr 1
      funext o
      congr 1
      simp only [purgeImports]
      apply List.filter_congr
      intro kv _
      simp only [List.any_cons, ht, Bool.not_true, Bool.and_false, Bool.false_or]

theorem purge_self (fi : List (String × JSVal)) (hnd : keysNodup fi) :
    purgeImports fi fi = fi.filter (fun kv => truthyString kv.2) := by
  apply List.filter_congr
  intro kv hkv
  cases ht : truthyString kv.2 with
  | true =>
    have : fi.any (fun e => (e.1 == kv.1) && !truthyString e.2) = false := by
      rw [Bool.eq_false_iff]
      intro hany
      obtain ⟨e, he, hpe⟩ := List.any_eq_true.mp hany
      simp only [Bool.and_eq_true, beq_iff_eq, Bool.not_eq_true'] at hpe
      have : e = kv := List.inj_on_of_nodup_map hnd he hkv hpe.1
      rw [this] at hpe
      rw [ht] at hpe
      exact absurd hpe.2 (by simp)
    rw [this]
    rfl
  | false =>
    have : fi.any (fun e => (e.1 == kv.1) && !truthyString e.2) = true := by
      apply List.any_eq_true.mpr
      exact ⟨kv, hkv, by simp [ht]⟩
    rw [this]
    rfl

theorem lookup_none_of_not_mem_keys {α : Type} (k : String) (l : List (String × α))
    (h : k ∉ l.map Prod.fst) : List.lookup k l = none := by
  induction l with
  | nil => rfl
  | cons a t ih =>
    simp only [List.map, List.mem_cons] at h
    push_neg at h
    simp only [List.lookup]
    rw [show (k == a.1) = false by simp [h.1]]
    exact ih h.2

theorem lookup_none_filter {α : Type} (k : String) (p : String × α → Bool)
    (l : List (String × α)) (h : List.lookup k l = none) :
    List.lookup k (l.filter p) = none := by
  induction l with
  | nil => rfl
  | cons a t ih =>
    simp only [List.lookup] at h
    cases hk : (k == a.1) with
    | true => rw [hk] at h; cases h
    | false =>
      rw [hk] at h
      simp only [List.filter]
      cases hp : p a with
      | true =>
        simp only [List.lookup]
        rw [hk]
        exact ih h
      | false => exact ih h

/-- In a nodup-keys list, the unique entry for a key that fails the
filter is gone from the filtered list. -/
theorem lookup_filter_none_of_fails {α : Type} (k : String) (w : α) (p : String × α → Bool)
    (l : List (String × α)) (hnd : keysNodup l) (hm : (k, w) ∈ l) (hp : p (k, w) = false) :
    List.lookup k (l.filter p) = none := by
  induction l with
  | nil => cases hm
  | cons a t ih =>
    simp only [keysNodup, List.map, List.nodup_cons] at hnd
    rcases List.mem_cons.mp hm with hhd | htl
    · subst hhd
      simp only [List.filter, hp]
      apply lookup_none_filter
      apply lookup_none_of_not_mem_keys
      exact hnd.1
    · have hak : a.1 ≠ k := by
        intro heq
        apply hnd.1
        rw [heq]
        exact List.mem_map_of_mem Prod.fst htl
      simp only [List.filter]
      cases hpa : p a with
      | true =>
        simp only [List.lookup]
        rw [show (k == a.1) = false by simp [Ne.symm hak]]
        exact ih hnd.2 htl
      | false => exact ih hnd.2 htl

theorem validateImports_eq (id : Nat) (σ : Store) (o : HObj) (h : lookupObj σ id = some o) :
    validateImports id σ =
      updObj id (fun o2 => ⟨o2.isArray, purgeImports o.fields o2.fields⟩) σ := by
  unfold validateImports
  rw [h]
  show validateImportsLoop id o.fields σ = _
  rw [validateImportsLoop_eq]

theorem validateImports_pres (id j : Nat) (σ : Store) (h : j ≠ id) :
    lookupObj (validateImports id σ) j = lookupObj σ j := by
  unfold validateImports
  cases hl : lookupObj σ id with
  | none => rfl
  | some o =>
    show lookupObj (validateImportsLoop id o.fields σ) j = _
    rw [validateImportsLoop_eq]
    exact lookupObj_updObj_ne _ _ _ _ h

theorem isObjectV_updObj_fields (v : JSVal) (id : Nat)
    (g : List (String × JSVal) → List (String × JSVal)) (σ : Store) :
    isObjectV v (updObj id (fun o => ⟨o.isArray, g o.fields⟩) σ) = isObjectV v σ := by
  cases v with
  | ref i =>
    show (match lookupObj (updObj id _ σ) i with
          | some o => !o.isArray
          | none => false) =
        (match lookupObj σ i with
          | some o => !o.isArray
          | none => false)
    by_cases hi : i = id
    · subst hi
      rw [lookupObj_updObj_self]
      cases lookupObj σ i with
      | none => rfl
      | some o => rfl
    · rw [lookupObj_updObj_ne _ _ _ _ hi]
  | str s => rfl
  | num n => rfl
  | jsBool b => rfl
  | null => rfl
  | undef => rfl

theorem isObjectV_validateImports (v : JSVal) (id : Nat) (σ : Store) :
    isObjectV v (validateImports id σ) = isObjectV v σ := by
  unfold validateImports
  cases hl : lookupObj σ id with
  | none => rfl
  | some o =>
    show isObjectV v (validateImportsLoop id o.fields σ) = _
    rw [validateImportsLoop_eq]
    exact isObjectV_updObj_fields v id _ σ

theorem isObjectV_deleteField (v : JSVal) (id : Nat) (k : String) (σ : Store) :
    isObjectV v (deleteField id k σ) = isObjectV v σ :=
  isObjectV_updObj_fields v id _ σ

theorem deleteField_pres (id j : Nat) (k : String) (σ : Store) (h : j ≠ id) :
    lookupObj (deleteField id k σ) j = lookupObj σ j :=
  lookupObj_updObj_ne _ _ _ _ h

theorem isRef_of_isObjectV (v : JSVal) (σ : Store) (h : isObjectV v σ = true) :
    ∃ r, v = JSVal.ref r := by
  cases v with
  | ref r => exact ⟨r, rfl⟩
  | str s => cases h
  | num n => cases h
  | jsBool b => cases h
  | null => cases h
  | undef => cases h

theorem scopesLoop_pres (id j : Nat) (hji : j ≠ id) :
    ∀ (l : List (String × JSVal)) (σ : Store),
    (∀ kv ∈ l, isObjectV kv.2 σ = true → refId kv.2 ≠ j) →
    lookupObj (validateScopesLoop id l σ) j = lookupObj σ j := by
  intro l
  induction l with
  | nil => intro σ _; rfl
  | cons a rest ih =>
    intro σ hrefs
    obtain ⟨k1, w1⟩ := a
    show lookupObj (if isObjectV w1 σ then validateScopesLoop id rest (validateImports (refId w1) σ)
      else validateScopesLoop id rest (deleteField id k1 σ)) j = _
    cases ho : isObjectV w1 σ with
    | true =>
      rw [if_pos rfl]
      have hrj : refId w1 ≠ j := hrefs (k1, w1) (List.mem_cons_self _ _) ho
      rw [ih (validateImports (refId w1) σ)
        (fun kv hkv hobj => hrefs kv (List.mem_cons_of_mem _ hkv)
          (by rw [← isObjectV_validateImports kv.2 (refId w1) σ]; exact hobj))]
      exact validateImports_pres _ _ _ (Ne.symm hrj)
    | false =>
      rw [if_neg (by simp)]
      rw [ih (deleteField id k1 σ)
        (fun kv hkv hobj => hrefs kv (List.mem_cons_of_mem _ hkv)
          (by rw [← isObjectV_deleteField kv.2 id k1 σ]; exact hobj))]
      exact deleteField_pres _ _ _ _ hji

theorem scopesLoop_keeps_absent (id : Nat) (k : String) :
    ∀ (l : List (String × JSVal)) (σ : Store),
    (∀ kv ∈ l, isObjectV kv.2 σ = true → refId kv.2 ≠ id) →
    (∀ o, lookupObj σ id = some o → List.lookup k o.fields = none) →
    ∀ o, lookupObj (validateScopesLoop id l σ) id = some o → List.lookup k o.fields = none := by
  intro l
  induction l with
  | nil => intro σ _ habs o h; exact habs o h
  | cons a rest ih =>
    intro σ hrefs habs o hfin
    obtain ⟨k1, w1⟩ := a
    rw [show validateScopesLoop id ((k1, w1) :: rest) σ =
      (if isObjectV w1 σ then validateScopesLoop id rest (validateImports (refId w1) σ)
       else validateScopesLoop id rest (deleteField id k1 σ)) from rfl] at hfin
    cases ho : isObjectV w1 σ with
    | true =>
      rw [if_pos ho] at hfin
      have hrj : refId w1 ≠ id := hrefs (k1, w1) (List.mem_cons_self _ _) ho
      refine ih (validateImports (refId w1) σ)
        (fun kv hkv hobj => hrefs kv (List.mem_cons_of_mem _ hkv)
          (by rw [← isObjectV_validateImports kv.2 (refId w1) σ]; exact hobj))
        ?_ o hfin
      intro o2 h2
      rw [validateImports_pres _ _ _ (Ne.symm hrj)] at h2
      exact habs o2 h2
    | false =>
      rw [if_neg (by simp [ho])] at hfin
      refine ih (deleteField id k1 σ)
        (fun kv hkv hobj => hrefs kv (List.mem_cons_of_mem _ hkv)
          (by rw [← isObjectV_deleteField kv.2 id k1 σ]; exact hobj))
        ?_ o hfin
      intro o2 h2
      rw [show deleteField id k1 σ =
        updObj id (fun o3 => ⟨o3.isArray, o3.fields.filter (fun kv => kv.1 ≠ k1)⟩) σ from rfl,
        lookupObj_updObj_self] at h2
      cases hl : lookupObj σ id with
      | none => rw [hl] at h2; cases h2
      | some o3 =>
        rw [hl] at h2
        cases h2
        exact lookup_none_filter k _ o3.fields (habs o3 hl)

theorem scopesLoop_deletes (id : Nat) :
    ∀ (l : List (String × JSVal)) (σ : Store) (k : String) (w : JSVal),
    (k, w) ∈ l → isObjectV w σ = false →
    (∀ kv ∈ l, isObjectV kv.2 σ = true → refId kv.2 ≠ id) →
    ∀ o, lookupObj (validateScopesLoop id l σ) id = some o → List.lookup k o.fields = none := by
  intro l
  induction l with
  | nil => intro σ k w hm; cases hm
  | cons a rest ih =>
    intro σ k w hm hobj hrefs o hfin
    obtain ⟨k1, w1⟩ := a
    rw [show validateScopesLoop id ((k1, w1) :: rest) σ =
      (if isObjectV w1 σ then validateScopesLoop id rest (validateImports (refId w1) σ)
       else validateScopesLoop id rest (deleteField id k1 σ)) from rfl] at hfin
    rcases List.mem_cons.mp hm with hhd | htl
    · have hk1 : k = k1 := congrArg Prod.fst hhd
      have hw1 : w = w1 := congrArg Prod.snd hhd
      subst hk1
      subst hw1
      rw [if_neg (by simp [hobj])] at hfin
      refine scopesLoop_keeps_absent id k rest (deleteField id k σ)
        (fun kv hkv ho2 => hrefs kv (List.mem_cons_of_mem _ hkv)
          (by rw [← isObjectV_deleteField kv.2 id k σ]; exact ho2))
        ?_ o hfin
      intro o2 h2
      rw [show deleteField id k σ =
        updObj id (fun o3 => ⟨o3.isArray, o3.fields.filter (fun kv => kv.1 ≠ k)⟩) σ from rfl,
        lookupObj_updObj_self] at h2
      cases hl : lookupObj σ id with
      | none => rw [hl] at h2; cases h2
      | some o3 =>
        rw [hl] at h2
        cases h2
        exact lookup_filter_ne_self k o3.fields
    · cases ho1 : isObjectV w1 σ with
      | true =>
        rw [if_pos ho1] at hfin
        refine ih (validateImports (refId w1) σ) k w htl
          (by rw [isObjectV_validateImports]; exact hobj)
          (fun kv hkv ho2 => hrefs kv (List.mem_cons_of_mem _ hkv)
            (by rw [← isObjectV_validateImports kv.2 (refId w1) σ]; exact ho2))
          o hfin
      | false =>
        rw [if_neg (by simp [ho1])] at hfin
        refine ih (deleteField id k1 σ) k w htl
          (by rw [isObjectV_deleteField]; exact hobj)
          (fun kv hkv ho2 => hrefs kv (List.mem_cons_of_mem _ hkv)
            (by rw [← isObjectV_deleteField kv.2 id k1 σ]; exact ho2))
          o hfin

theorem filter_truthy_idem (g : List (String × JSVal)) :
    (g.filter (fun kv => truthyString kv.2)).filter (fun kv => truthyString kv.2) =
      g.filter (fun kv => truthyString kv.2) := by
  rw [List.filter_filter]
  apply List.filter_congr
  intro kv _
  rw [Bool.and_self]

theorem keysNodup_filter (g : List (String × JSVal)) (p : String × JSVal → Bool)
    (h : keysNodup g) : keysNodup (g.filter p) := by
  unfold keysNodup at *
  have hsub : List.Sublist ((g.filter p).map Prod.fst) (g.map Prod.fst) :=
    List.Sublist.map Prod.fst (List.filter_sublist g)
  exact List.Nodup.sublist hsub h

theorem scopesLoop_inner (id j : Nat) (fj : List (String × JSVal)) (hji : j ≠ id) :
    ∀ (l : List (String × JSVal)) (σ : Store) (g : List (String × JSVal)),
    lookupObj σ j = some ⟨false, g⟩ → keysNodup g →
    g.filter (fun kv => truthyString kv.2) = fj.filter (fun kv => truthyString kv.2) →
    (∃ k2, (k2, JSVal.ref j) ∈ l) →
    lookupObj (validateScopesLoop id l σ) j =
      some ⟨false, fj.filter (fun kv => truthyString kv.2)⟩ := by
  intro l
  induction l with
  | nil =>
    intro σ g _ _ _ hmem
    obtain ⟨k2, hk2⟩ := hmem
    cases hk2
  | cons a rest ih =>
    intro σ g hg hnd hfilt hmem
    obtain ⟨k1, w1⟩ := a
    show lookupObj (if isObjectV w1 σ then validateScopesLoop id rest (validateImports (refId w1) σ)
      else validateScopesLoop id rest (deleteField id k1 σ)) j = _
    by_cases hw : w1 = JSVal.ref j
    · subst hw
      have hobj : isObjectV (JSVal.ref j) σ = true := by
        show (match lookupObj σ j with
              | some o => !o.isArray
              | none => false) = true
        rw [hg]
        rfl
      rw [if_pos (by rw [hobj])]
      have hσ1 : lookupObj (validateImports (refId (JSVal.ref j)) σ) j =
          some ⟨false, g.filter (fun kv => truthyString kv.2)⟩ := by
        show lookupObj (validateImports j σ) j = _
        rw [validateImports_eq j σ ⟨false, g⟩ hg, lookupObj_updObj_self, hg]
        exact congrArg some (congrArg (HObj.mk false) (purge_self g hnd))
      by_cases hrest : ∃ k2, (k2, JSVal.ref j) ∈ rest
      · refine ih (validateImports (refId (JSVal.ref j)) σ)
          (g.filter (fun kv => truthyString kv.2)) hσ1
          (keysNodup_filter g _ hnd) ?_ hrest
        rw [filter_truthy_idem]
        exact hfilt
      · rw [scopesLoop_pres id j hji rest (validateImports (refId (JSVal.ref j)) σ) ?_]
        · rw [hσ1, hfilt]
        · intro kv hkv ho2
          obtain ⟨r, hr⟩ := isRef_of_isObjectV kv.2 _ ho2
          intro hrj
          apply hrest
          refine ⟨kv.1, ?_⟩
          rw [hr] at hrj
          have h3 : kv.2 = JSVal.ref j := by
            rw [hr]
            exact congrArg JSVal.ref hrj
          rw [← h3]
          exact hkv
    · have hmem2 : ∃ k2, (k2, JSVal.ref j) ∈ rest := by
        obtain ⟨k2, hk2⟩ := hmem
        rcases List.mem_cons.mp hk2 with hhd | htl
        · exact absurd (congrArg Prod.snd hhd).symm hw
        · exact ⟨k2, htl⟩
      cases ho1 : isObjectV w1 σ with
      | true =>
        rw [if_pos rfl]
        obtain ⟨r, hr⟩ := isRef_of_isObjectV w1 σ ho1
        have hrj : refId w1 ≠ j := by
          intro heq
          apply hw
          rw [hr] at heq
          rw [hr]
          exact congrArg JSVal.ref heq
        refine ih (validateImports (refId w1) σ) g ?_ hnd hfilt hmem2
        rw [validateImports_pres _ _ _ (Ne.symm hrj)]
        exact hg
      | false =>
        rw [if_neg (by simp)]
        refine ih (deleteField id k1 σ) g ?_ hnd hfilt hmem2
        rw [deleteField_pres _ _ _ _ hji]
        exact hg

theorem mem_of_lookup {α : Type} {k : String} {v : α} {l : List (String × α)}
    (h : List.lookup k l = some v) : (k, v) ∈ l := by
  induction l with
  | nil => cases h
  | cons a t ih =>
    simp only [List.lookup] at h
    cases hk : (k == a.1) with
    | true =>
      rw [hk] at h
      cases h
      have : k = a.1 := by simpa using hk
      rw [this]
      exact List.mem_cons_self _ _
    | false =>
      rw [hk] at h
      exact List.mem_cons_of_mem _ (ih h)

theorem mem_of_lookupN {k : Nat} {v : HObj} {l : List (Nat × HObj)}
    (h : List.lookup k l = some v) : (k, v) ∈ l := by
  induction l with
  | nil => cases h
  | cons a t ih =>
    simp only [List.lookup] at h
    cases hk : (k == a.1) with
    | true =>
      rw [hk] at h
      cases h
      have : k = a.1 := by simpa using hk
      rw [this]
      exact List.mem_cons_self _ _
    | false =>
      rw [hk] at h
      exact List.mem_cons_of_mem _ (ih h)

theorem createBlank_lookup (baseURL : Option String) (σ : Store) (x : Nat)
    (hx : x < σ.nextId) :
    lookupObj (createBlankImportMapH baseURL σ).2 x = lookupObj σ x := by
  show lookupObj (allocObj ⟨false, []⟩ (allocObj ⟨false, []⟩ σ).2).2 x = _
  rw [lookupObj_alloc _ _ _ (show x ≠ (allocObj (⟨false, []⟩ : HObj) σ).2.nextId from by
    show x ≠ σ.nextId + 1
    omega)]
  rw [lookupObj_alloc _ _ _ (show x ≠ σ.nextId from by omega)]

theorem importMapFromH_unfold (v : JSVal) (baseURL : Option String) (σ : Store)
    (imports scopes : JSVal)
    (hv : isObjectV v (createBlankImportMapH baseURL σ).2 = true)
    (hgi : getFieldV v "imports" (createBlankImportMapH baseURL σ).2 = imports)
    (hgs : getFieldV v "scopes" (createBlankImportMapH baseURL σ).2 = scopes)
    (hiobj : isObjectV imports (createBlankImportMapH baseURL σ).2 = true)
    (hsobj : isObjectV scopes
      (validateImports (refId imports) (createBlankImportMapH baseURL σ).2) = true) :
    importMapFromH v baseURL σ =
      (⟨(createBlankImportMapH baseURL σ).1.baseURL, imports, scopes⟩,
        validateScopes (refId scopes)
          (validateImports (refId imports) (createBlankImportMapH baseURL σ).2)) := by
  simp only [importMapFromH, hv, hgi, hgs, hiobj, hsobj, if_true]

/-- C10: `importMapFrom` mutates its argument rather than copying it.
For an argument object `v` (at `vid`) whose `imports` and `scopes`
properties are distinct plain objects, the returned map's `imports`
and `scopes` fields are the very same objects (the same store ids) as
`v.imports` and `v.scopes`; `v.imports` itself ends up with exactly its
truthy-string-valued entries (every non-string value is never a truthy
string, so every non-string-valued entry is deleted in place, as is the
falsy empty string); every non-object-valued entry of `v.scopes` is
deleted from `v.scopes` itself; and each object-valued scope entry is
filtered in place by the same rule.  The hypotheses state store
well-formedness, JavaScript object key uniqueness, no aliasing of the
scope values onto the two tables, and no dangling references. -/
theorem C10_importMapFrom_mutates :
    ∀ (σ : Store) (vid iid sid : Nat) (fv fi fs : List (String × JSVal)),
    StoreWF σ →
    lookupObj σ vid = some ⟨false, fv⟩ →
    List.lookup "imports" fv = some (JSVal.ref iid) →
    List.lookup "scopes" fv = some (JSVal.ref sid) →
    lookupObj σ iid = some ⟨false, fi⟩ →
    lookupObj σ sid = some ⟨false, fs⟩ →
    iid ≠ sid →
    keysNodup fi →
    (∀ kv ∈ fs, kv.2 ≠ JSVal.ref iid ∧ kv.2 ≠ JSVal.ref sid) →
    (∀ kv ∈ fs, ∀ r : Nat, kv.2 = JSVal.ref r → r < σ.nextId) →
    ((importMapFromH (JSVal.ref vid) none σ).1.imports = JSVal.ref iid
      ∧ (importMapFromH (JSVal.ref vid) none σ).1.scopes = JSVal.ref sid)
    ∧ lookupObj (importMapFromH (JSVal.ref vid) none σ).2 iid =
        some ⟨false, fi.filter (fun kv => truthyString kv.2)⟩
    ∧ (∀ k w, (k, w) ∈ fi → truthyString w = false →
        List.lookup k (fi.filter (fun kv => truthyString kv.2)) = none)
    ∧ (∀ o, lookupObj (importMapFromH (JSVal.ref vid) none σ).2 sid = some o →
        ∀ k w, (k, w) ∈ fs → isObjectV w σ = false → List.lookup k o.fields = none)
    ∧ (∀ k j fj, (k, JSVal.ref j) ∈ fs → lookupObj σ j = some ⟨false, fj⟩ → keysNodup fj →
        lookupObj (importMapFromH (JSVal.ref vid) none σ).2 j =
          some ⟨false, fj.filter (fun kv => truthyString kv.2)⟩) := by
  intro σ vid iid sid fv fi fs hwf hv hvi hvs hio hso hisne hnd hfs1 hfsB
  have hvidlt : vid < σ.nextId := hwf _ (mem_of_lookupN hv)
  have hiidlt : iid < σ.nextId := hwf _ (mem_of_lookupN hio)
  have hsidlt : sid < σ.nextId := hwf _ (mem_of_lookupN hso)
  have hv1 : lookupObj (createBlankImportMapH none σ).2 vid = some ⟨false, fv⟩ := by
    rw [createBlank_lookup none σ vid hvidlt]; exact hv
  have hi1 : lookupObj (createBlankImportMapH none σ).2 iid = some ⟨false, fi⟩ := by
    rw [createBlank_lookup none σ iid hiidlt]; exact hio
  have hs1 : lookupObj (createBlankImportMapH none σ).2 sid = some ⟨false, fs⟩ := by
    rw [createBlank_lookup none σ sid hsidlt]; exact hso
  have hvobj : isObjectV (JSVal.ref vid) (createBlankImportMapH none σ).2 = true := by
    show (match lookupObj (createBlankImportMapH none σ).2 vid with
          | some o => !o.isArray
          | none => false) = true
    rw [hv1]
    rfl
  have hgi : getFieldV (JSVal.ref vid) "imports" (createBlankImportMapH none σ).2 =
      JSVal.ref iid := by
    show (match lookupObj (createBlankImportMapH none σ).2 vid with
          | some o => (List.lookup "imports" o.fields).getD JSVal.undef
          | none => JSVal.undef) = _
    rw [hv1]
    show (List.lookup "imports" fv).getD JSVal.undef = _
    rw [hvi]
    rfl
  have hgs : getFieldV (JSVal.ref vid) "scopes" (createBlankImportMapH none σ).2 =
      JSVal.ref sid := by
    show (match lookupObj (createBlankImportMapH none σ).2 vid with
          | some o => (List.lookup "scopes" o.fields).getD JSVal.undef
          | none => JSVal.undef) = _
    rw [hv1]
    show (List.lookup "scopes" fv).getD JSVal.undef = _
    rw [hvs]
    rfl
  have hiobj : isObjectV (JSVal.ref iid) (createBlankImportMapH none σ).2 = true := by
    show (match lookupObj (createBlankImportMapH none σ).2 iid with
          | some o => !o.isArray
          | none => false) = true
    rw [hi1]
    rfl
  have hσ2 : lookupObj (validateImports (refId (JSVal.ref iid))
      (createBlankImportMapH none σ).2) sid = some ⟨false, fs⟩ := by
    show lookupObj (validateImports iid (createBlankImportMapH none σ).2) sid = _
    rw [validateImports_pres iid sid _ (Ne.symm hisne)]
    exact hs1
  have hσ2i : lookupObj (validateImports (refId (JSVal.ref iid))
      (createBlankImportMapH none σ).2) iid =
      some ⟨false, fi.filter (fun kv => truthyString kv.2)⟩ := by
    show lookupObj (validateImports iid (createBlankImportMapH none σ).2) iid = _
    rw [validateImports_eq iid _ ⟨false, fi⟩ hi1, lookupObj_updObj_self, hi1]
    exact congrArg some (congrArg (HObj.mk false) (purge_self fi hnd))
  have hsobj : isObjectV (JSVal.ref sid) (validateImports (refId (JSVal.ref iid))
      (createBlankImportMapH none σ).2) = true := by
    show (match lookupObj (validateImports (refId (JSVal.ref iid))
            (createBlankImportMapH none σ).2) sid with
          | some o => !o.isArray
          | none => false) = true
    rw [hσ2]
    rfl
  have hmain := importMapFromH_unfold (JSVal.ref vid) none σ (JSVal.ref iid) (JSVal.ref sid)
    hvobj hgi hgs hiobj hsobj
  have hstab : ∀ w : JSVal, (∀ r : Nat, w = JSVal.ref r → r < σ.nextId) →
      isObjectV w (validateImports (refId (JSVal.ref iid))
        (createBlankImportMapH none σ).2) = isObjectV w σ := by
    intro w hwb
    rw [isObjectV_validateImports]
    cases w with
    | ref r =>
      show (match lookupObj (createBlankImportMapH none σ).2 r with
            | some o => !o.isArray
            | none => false) =
          (match lookupObj σ r with
            | some o => !o.isArray
            | none => false)
      rw [createBlank_lookup none σ r (hwb r rfl)]
    | str s => rfl
    | num n => rfl
    | jsBool b => rfl
    | null => rfl
    | undef => rfl
  have hrefsNE : ∀ x ∈ fs, isObjectV x.2 (validateImports (refId (JSVal.ref iid))
      (createBlankImportMapH none σ).2) = true → refId x.2 ≠ iid ∧ refId x.2 ≠ sid := by
    intro x hx ho
    obtain ⟨r, hr⟩ := isRef_of_isObjectV x.2 _ ho
    constructor
    · intro he
      rw [hr] at he
      exact (hfs1 x hx).1 (by rw [hr]; exact congrArg JSVal.ref he)
    · intro he
      rw [hr] at he
      exact (hfs1 x hx).2 (by rw [hr]; exact congrArg JSVal.ref he)
  have hscopes : validateScopes (refId (JSVal.ref sid))
      (validateImports (refId (JSVal.ref iid)) (createBlankImportMapH none σ).2) =
      validateScopesLoop sid fs
        (validateImports (refId (JSVal.ref iid)) (createBlankImportMapH none σ).2) := by
    show validateScopes sid _ = _
    unfold validateScopes
    rw [hσ2]
  refine ⟨⟨by rw [hmain], by rw [hmain]⟩, ?_, ?_, ?_, ?_⟩
  · rw [hmain]
    show lookupObj (validateScopes (refId (JSVal.ref sid)) _) iid = _
    rw [hscopes]
    rw [scopesLoop_pres sid iid hisne fs _
      (fun kv hkv ho => (hrefsNE kv hkv ho).1)]
    exact hσ2i
  · intro k w hkw hw
    exact lookup_filter_none_of_fails k w _ fi hnd hkw (by rw [hw])
  · intro o hfin k w hkw hwobj
    rw [hmain, hscopes] at hfin
    refine scopesLoop_deletes sid fs _ k w hkw ?_
      (fun kv hkv ho => (hrefsNE kv hkv ho).2) o hfin
    rw [hstab w ?_]
    · exact hwobj
    · intro r hr
      exact hfsB (k, w) hkw r hr
  · intro k j fj hkj hj hndj
    have hjlt : j < σ.nextId := hwf _ (mem_of_lookupN hj)
    have hjne_i : j ≠ iid := by
      intro he
      exact ((hfs1 (k, JSVal.ref j) hkj).1) (by rw [he])
    have hjne_s : j ≠ sid := by
      intro he
      exact ((hfs1 (k, JSVal.ref j) hkj).2) (by rw [he])
    rw [hmain, hscopes]
    refine scopesLoop_inner sid j fj hjne_s fs _ fj ?_ hndj rfl ⟨k, hkj⟩
    show lookupObj (validateImports iid (createBlankImportMapH none σ).2) j = _
    rw [validateImports_pres iid j _ hjne_i, createBlank_lookup none σ j hjlt]
    exact hj

/-- Witness for C10: the concrete four-object store.  The returned map
aliases objects 1 and 2, object 1 is filtered in place to its sole
truthy-string entry. -/
theorem C10_importMapFrom_mutates_witness :
    (importMapFromH (JSVal.ref 0) none wStore).1.imports = JSVal.ref 1
  ∧ (importMapFromH (JSVal.ref 0) none wStore).1.scopes = JSVal.ref 2
  ∧ lookupObj (importMapFromH (JSVal.ref 0) none wStore).2 1 =
      some ⟨false, [("a", JSVal.str "x")]⟩
  ∧ lookupObj (importMapFromH (JSVal.ref 0) none wStore).2 3 =
      some ⟨false, [("c", JSVal.str "y")]⟩ :=
  have h := C10_importMapFrom_mutates wStore 0 1 2
    [("imports", JSVal.ref 1), ("scopes", JSVal.ref 2)]
    [("a", JSVal.str "x"), ("b", JSVal.num 1), ("c", JSVal.str "")]
    [("s1", JSVal.ref 3), ("bad", JSVal.str "no")]
    (by unfold StoreWF; decide) (by decide) (by decide) (by decide) (by decide) (by decide)
    (by decide) (by unfold keysNodup; decide) (by decide)
    (by
      intro kv hkv r hr
      rcases List.mem_cons.mp hkv with h1 | h1
      · rw [h1] at hr
        injection hr with h3
        rw [← h3]
        decide
      · rcases List.mem_cons.mp h1 with h2 | h2
        · rw [h2] at hr
          cases hr
        · cases h2)
  ⟨h.1.1, h.1.2, h.2.1,
    h.2.2.2.2 "s1" 3 [("c", JSVal.str "y"), ("d", JSVal.null)]
      (by decide) (by decide) (by unfold keysNodup; decide)⟩
